import Mathlib

/-!
# Verification of the TextEditor outline editor (ListManager / Editor)

Shallow embedding of `src/TextEditor/ListManager.py` and the parts of
`src/TextEditor/Editor.py` the claims are about.  Python strings are modelled
as `List Char` (Python indexes strings by code point), Python `int` as `Int`,
and Python exceptions (`IndexError` escaping an operation) as an explicit
failure marker: operations return their (possibly partially mutated) state
together with a `Bool` that is `false` when the Python code would raise, or an
`Option` result that is `none` when the call raises.
-/

set_option autoImplicit false

namespace TextEditor

/-! ## Python primitive semantics -/

/-- Resolution of a Python sequence index (negative indices count from the
end); `none` models an `IndexError`. -/
def pyIdx (n : Nat) (i : Int) : Option Nat :=
  let j : Int := if i < 0 then i + n else i
  if 0 ≤ j ∧ j < n then some j.toNat else none

/-- Python `l[i]` on a list. -/
def pyListGet {α : Type} (l : List α) (i : Int) : Option α :=
  (pyIdx l.length i).bind fun j => l[j]?

/-- Python `l[i] = x` on a list. -/
def pyListSet {α : Type} (l : List α) (i : Int) (x : α) : Option (List α) :=
  (pyIdx l.length i).map fun j => l.set j x

/-- Position at which Python `list.insert(i, x)` places `x` (clamped). -/
def pyInsertIdx (n : Nat) (i : Int) : Nat :=
  if i < 0 then (max (i + n) 0).toNat else min i.toNat n

/-- Python `list.insert(i, x)`. -/
def pyInsert {α : Type} (l : List α) (i : Int) (x : α) : List α :=
  let j := pyInsertIdx l.length i
  l.take j ++ x :: l.drop j

/-- Python `range(a, b)` (step 1). -/
def pyRange (a b : Int) : List Int :=
  (List.range (b - a).toNat).map fun (k : Nat) => a + (k : Int)

/-- Resolution of a Python slice bound for a sequence of length `n`. -/
def pySliceIdx (n : Nat) (i : Int) : Nat :=
  if i < 0 then (max (i + n) 0).toNat else min i.toNat n

/-- Python `s[:i]`. -/
def pySliceTo {α : Type} (l : List α) (i : Int) : List α :=
  l.take (pySliceIdx l.length i)

/-- Python `s[i:]`. -/
def pySliceFrom {α : Type} (l : List α) (i : Int) : List α :=
  l.drop (pySliceIdx l.length i)

/-- The ASCII characters Python's `str.strip` / `str.split` treat as
whitespace (code points 9-13, 28-31 and 32).  Non-ASCII whitespace is not
modelled; the file contents the claims quantify over are ASCII. -/
def isSpace (c : Char) : Bool :=
  c.toNat = 32 ∨ (9 ≤ c.toNat ∧ c.toNat ≤ 13) ∨ (28 ≤ c.toNat ∧ c.toNat ≤ 31)

/-- Python `s.lstrip()`. -/
def pyLstrip (s : List Char) : List Char := s.dropWhile isSpace

/-- Python `s.rstrip()`. -/
def pyRstrip (s : List Char) : List Char := (s.reverse.dropWhile isSpace).reverse

/-- Python `s.strip()`. -/
def pyStrip (s : List Char) : List Char := pyRstrip (pyLstrip s)

/-- Accumulator worker for `pySplit`; `cur` is the reversed current token. -/
def pySplitAux (cur : List Char) : List Char → List (List Char)
  | [] => if cur = [] then [] else [cur.reverse]
  | c :: cs =>
    if isSpace c then
      if cur = [] then pySplitAux [] cs else cur.reverse :: pySplitAux [] cs
    else pySplitAux (c :: cur) cs

/-- Python `s.split()` (split on whitespace runs, no empty tokens). -/
def pySplit (s : List Char) : List (List Char) := pySplitAux [] s

/-- Python `' '.join(tokens)`. -/
def joinSpace : List (List Char) → List Char
  | [] => []
  | [t] => t
  | t :: ts => t ++ ' ' :: joinSpace ts

/-- Worker for `pyLines`; `acc` is the reversed current line. -/
def pyLinesAux (acc : List Char) : List Char → List (List Char)
  | [] => if acc = [] then [] else [acc.reverse]
  | c :: cs =>
    if c = '\n' then (acc.reverse ++ ['\n']) :: pyLinesAux [] cs
    else pyLinesAux (c :: acc) cs

/-- Iterating over a Python text file: the decoded character stream split into
lines, each line keeping its terminating newline (a last unterminated line is
yielded as well). -/
def pyLines (s : List Char) : List (List Char) := pyLinesAux [] s

/-- Decimal digit character. -/
def digitChar (d : Nat) : Char := Char.ofNat (48 + d)

/-- Worker for `natToChars`; the first argument is structural fuel (any value
at least the number of digits, in particular `n` itself, gives the digits). -/
def natToCharsAux : Nat → Nat → List Char → List Char
  | 0, _, acc => acc
  | fuel + 1, n, acc =>
    if n = 0 then acc else natToCharsAux fuel (n / 10) (digitChar (n % 10) :: acc)

/-- Python `str(n)` for a nonnegative integer: decimal digits. -/
def natToChars (n : Nat) : List Char :=
  if n = 0 then ['0'] else natToCharsAux n n []

/-- Python `".".join(parts)`. -/
def intercalateDot : List (List Char) → List Char
  | [] => []
  | [p] => p
  | p :: ps => p ++ '.' :: intercalateDot ps

/-- Python `s.split('.')`: the dot-separated components of a string. -/
def splitOnDot : List Char → List (List Char)
  | [] => [[]]
  | c :: cs =>
    if c = '.' then [] :: splitOnDot cs
    else
      match splitOnDot cs with
      | [] => [[c]]
      | p :: ps => (c :: p) :: ps

/-! ## Data model (`ListManager.py`) -/

/-- `ListItem.__init__` (ListManager.py lines 4-19).  `children` and `parent`
are never read or written anywhere in the repository and are omitted.  The
`id` field models the opaque unique token (`os.urandom(4).hex()`); its value
plays no role in any behaviour, so item creation uses `0`. -/
structure ListItem where
  content : List Char := []
  level : Int := 0
  id : Nat := 0
  collapsed : Bool := false
  metadata : List (List Char × List Char) := []
  /-- Set by `renumber_items`; a fresh Python item has no `number` attribute
  until the first renumbering pass, modelled by the empty default. -/
  number : List Char := []
deriving DecidableEq, Repr

instance : Inhabited ListItem := ⟨{}⟩

/-- `ListManager.__init__` (lines 21-26).  The `root` sentinel is never part
of `items` and is never consulted by any operation; it is omitted. -/
structure ListManager where
  items : List ListItem := []
  current_position : Int := 0
deriving DecidableEq, Repr

/-- `for i in range(level + 1, 11): counters[i] = 0` (lines 107-108).
`none` models an `IndexError` raised by one of the assignments. -/
def setZeros (counters : List Nat) : List Int → Option (List Nat)
  | [] => some counters
  | i :: is =>
    match pyListSet counters i 0 with
    | some c => setZeros c is
    | none => none

/-- `[str(counters[i]) for i in range(level + 1)]`, before `str` is applied:
read the listed counter cells, `none` on `IndexError`. -/
def readCounters (c : List Nat) : List Int → Option (List Nat)
  | [] => some []
  | i :: is =>
    match pyListGet c i, readCounters c is with
    | some v, some vs => some (v :: vs)
    | _, _ => none

/-- One iteration of the `renumber_items` loop body (lines 105-113): reset the
counters above `level`, increment `counters[level]`, and build the dot-joined
number string; `none` models an `IndexError` (raised when `level` is outside
the Python index range `[-11, 10]` of the 11-element counter list). -/
def renumberStep (counters : List Nat) (level : Int) : Option (List Nat × List Char) :=
  match setZeros counters (pyRange (level + 1) 11) with
  | none => none
  | some c1 =>
    match pyListGet c1 level with
    | none => none
    | some v =>
      match pyListSet c1 level (v + 1) with
      | none => none
      | some c2 =>
        match readCounters c2 (pyRange 0 (level + 1)) with
        | none => none
        | some vals => some (c2, intercalateDot (vals.map natToChars))

/-- The `renumber_items` scan over the items.  On an `IndexError` the items
already processed keep their new numbers, the remaining items are untouched,
and the flag is `false` (the exception propagates). -/
def renumberAux (counters : List Nat) : List ListItem → List ListItem × Bool
  | [] => ([], true)
  | it :: rest =>
    match renumberStep counters it.level with
    | none => (it :: rest, false)
    | some (c, num) =>
      let r := renumberAux c rest
      ({ it with number := num } :: r.1, r.2)

/-- `renumber_items` applied to a bare item list, starting from
`counters = [0] * 11` (line 103). -/
def renumberList (items : List ListItem) : List ListItem × Bool :=
  renumberAux (List.replicate 11 0) items

/-- `ListManager.renumber_items` (lines 101-113). -/
def ListManager.renumber_items (m : ListManager) : ListManager × Bool :=
  let r := renumberList m.items
  ({ m with items := r.1 }, r.2)

/-- `ListManager._get_recommended_level` (lines 51-62); `none` models the
`IndexError` raised by `self.items[self.current_position - 1]` when that
Python index is out of range. -/
def ListManager.get_recommended_level (m : ListManager) : Option Int :=
  if m.items.length = 0 ∨ m.current_position = 0 then some 0
  else (pyListGet m.items (m.current_position - 1)).map fun it => it.level

/-- The position the new item of `add_item` ends up at (lines 42-45:
`insert` at `current_position` when `current_position < len(items)`,
otherwise `append`). -/
def insertIndex (m : ListManager) : Nat :=
  if m.current_position < (m.items.length : Int)
  then pyInsertIdx m.items.length m.current_position
  else m.items.length

/-- The item list after the insertion step of `add_item` (lines 42-45). -/
def insertedItems (m : ListManager) (x : ListItem) : List ListItem :=
  if m.current_position < (m.items.length : Int)
  then pyInsert m.items m.current_position x
  else m.items ++ [x]

/-- `ListManager.add_item` (lines 28-49).  The second component is the
returned new item (as it stands in `items` after renumbering, since Python
returns an alias); it is `none` when the call raises, in which case the first
component is the state the exception leaves behind. -/
def ListManager.add_item (m : ListManager) (content : List Char) (lev : Option Int) :
    ListManager × Option ListItem :=
  match (match lev with | none => m.get_recommended_level | some l => some l) with
  | none => (m, none)
  | some lvl =>
    let new_item : ListItem := { content := content, level := lvl }
    let r := renumberList (insertedItems m new_item)
    ({ items := r.1, current_position := m.current_position + 1 },
      if r.2 then r.1[insertIndex m]? else none)

/-- `ListManager.delete_item` (lines 64-75).  The `Bool` is `false` when the
renumbering pass raises (in which case the `current_position` adjustment on
line 75 is skipped). -/
def ListManager.delete_item (m : ListManager) (index : Int) : ListManager × Bool :=
  if 0 ≤ index ∧ index < (m.items.length : Int) then
    let items1 := m.items.eraseIdx index.toNat
    let r := renumberList items1
    if r.2 then
      ({ items := r.1, current_position := min m.current_position ((r.1.length : Int) - 1) }, true)
    else ({ m with items := r.1 }, false)
  else (m, true)

/-- `ListManager.indent_item` (lines 77-87). -/
def ListManager.indent_item (m : ListManager) (index : Int) : ListManager × Bool :=
  if 0 ≤ index ∧ index < (m.items.length : Int) then
    match m.items[index.toNat]? with
    | some it =>
      let items1 := m.items.set index.toNat { it with level := min (it.level + 1) 10 }
      let r := renumberList items1
      ({ m with items := r.1 }, r.2)
    | none => (m, true)
  else (m, true)

/-- `ListManager.outdent_item` (lines 89-99). -/
def ListManager.outdent_item (m : ListManager) (index : Int) : ListManager × Bool :=
  if 0 ≤ index ∧ index < (m.items.length : Int) then
    match m.items[index.toNat]? with
    | some it =>
      let items1 := m.items.set index.toNat { it with level := max (it.level - 1) 0 }
      let r := renumberList items1
      ({ m with items := r.1 }, r.2)
    | none => (m, true)
  else (m, true)

/-- The line `save_to_file` writes for one item (line 124-125):
`"    " * level` + `number` + `" "` + `content` + `"\n"`. -/
def ListItem.saveLine (it : ListItem) : List Char :=
  List.replicate (4 * it.level.toNat) ' ' ++ it.number ++ ' ' :: (it.content ++ ['\n'])

/-- `ListManager.save_to_file` (lines 115-125), as the character stream
written to the file. -/
def ListManager.save_to_file (m : ListManager) : List Char :=
  (m.items.map ListItem.saveLine).flatten

/-- `level = (len(line) - len(line.lstrip())) // 4` (line 142; Python `//`
is floor division). -/
def loadLevel (line : List Char) : Int :=
  Int.fdiv ((line.length : Int) - ((pyLstrip line).length : Int)) 4

/-- `content = ' '.join(content.split()[1:])` applied to the stripped line
(line 144). -/
def loadContent (line : List Char) : List Char :=
  joinSpace ((pySplit (pyStrip line)).drop 1)

/-- The `for line in f` loop body of `load_from_file` (lines 138-145), over
the remaining lines.  The `Bool` is `false` when an `add_item` call raises
(the exception aborts the loop and propagates). -/
def loadLines (m : ListManager) : List (List Char) → ListManager × Bool
  | [] => (m, true)
  | line :: rest =>
    if (pyStrip line).length = 0 then loadLines m rest
    else
      match m.add_item (loadContent line) (some (loadLevel line)) with
      | (m1, some _) => loadLines m1 rest
      | (m1, none) => (m1, false)

/-- `ListManager.load_from_file` (lines 127-147), taking the decoded
character stream of the file as input (a missing file is the empty stream:
the `FileNotFoundError` handler leaves the cleared state). -/
def ListManager.load_from_file (file : List Char) : ListManager × Bool :=
  loadLines { items := [], current_position := 0 } (pyLines file)

/-! ## Editor model (`Editor.py`) -/

/-- `Mode` (Editor.py lines 7-11). -/
inductive Mode
  | NORMAL
  | INSERT
  | VISUAL
  | COMMAND
deriving DecidableEq, Repr

/-- The editor session state the input handlers read and write
(Editor.py lines 21-28).  The curses screen and the filename are pure I/O
concerns and are omitted. -/
structure Editor where
  list_manager : ListManager := {}
  mode : Mode := Mode.NORMAL
  current_line : Int := 0
  top_line : Int := 0
  cursor_x : Int := 0
  enter_count : Int := 0
deriving DecidableEq, Repr

/-- ncurses key code `curses.KEY_DOWN`. -/
def KEY_DOWN : Int := 258
/-- ncurses key code `curses.KEY_UP`. -/
def KEY_UP : Int := 259
/-- ncurses key code `curses.KEY_LEFT`. -/
def KEY_LEFT : Int := 260
/-- ncurses key code `curses.KEY_RIGHT`. -/
def KEY_RIGHT : Int := 261
/-- ncurses key code `curses.KEY_BACKSPACE`. -/
def KEY_BACKSPACE : Int := 263
/-- ncurses key code `curses.KEY_DC` (delete-forward). -/
def KEY_DC : Int := 330
/-- ncurses key code `curses.KEY_BTAB` (Shift+Tab). -/
def KEY_BTAB : Int := 353

/-- Write an item back at the Python index the current item was fetched
from (attribute assignment through the `current_item` alias mutates the item
in place inside `items`). -/
def pyWriteItem (items : List ListItem) (i : Int) (it : ListItem) : List ListItem :=
  match pyIdx items.length i with
  | some j => items.set j it
  | none => items

/-- `Editor.handle_insert_mode` (Editor.py lines 117-225), as a function of
the session state and the key code.  The result is `none` exactly when the
Python code raises an uncaught exception (an `IndexError` from indexing
`items` or from a renumbering pass); the handler always returns `True`, so
the continue-flag is not modelled. -/
def Editor.handle_insert_mode (e : Editor) (ch : Int) : Option Editor :=
  if e.list_manager.items.length = 0 then
    -- lines 127-130: add an item, point at it, return
    let r := e.list_manager.add_item [] none
    match r.2 with
    | some _ => some { e with list_manager := r.1, current_line := 0 }
    | none => none
  else
    match pyListGet e.list_manager.items e.current_line with
    | none => none
    | some current_item =>
      if ch = 27 then
        -- lines 134-137: ESC
        some { e with mode := Mode.NORMAL, enter_count := 0 }
      else if ch = 10 then
        -- lines 140-156: Enter, with the double-Enter counter
        let ec := e.enter_count + 1
        if ec = 2 then
          let lm1 := { e.list_manager with current_position := e.current_line + 1 }
          let r := lm1.add_item [] (some current_item.level)
          match r.2 with
          | some _ => some { e with list_manager := r.1,
                                    current_line := e.current_line + 1, enter_count := 0 }
          | none => none
        else
          let newContent := pySliceTo current_item.content e.cursor_x ++
            '\n' :: pySliceFrom current_item.content e.cursor_x
          some { e with
            list_manager := { e.list_manager with
              items := pyWriteItem e.list_manager.items e.current_line
                { current_item with content := newContent } },
            cursor_x := e.cursor_x + 1, enter_count := ec }
      else if ch = 9 then
        -- lines 159-161: Tab
        let r := e.list_manager.indent_item e.current_line
        if r.2 then some { e with list_manager := r.1, enter_count := 0 } else none
      else if ch = KEY_BTAB then
        -- lines 162-164: Shift+Tab
        let r := e.list_manager.outdent_item e.current_line
        if r.2 then some { e with list_manager := r.1, enter_count := 0 } else none
      else if ch = KEY_BACKSPACE ∨ ch = 127 ∨ ch = 8 then
        -- lines 167-186: Backspace
        if 0 < current_item.level ∧ e.cursor_x = 0 then
          let r := e.list_manager.outdent_item e.current_line
          if r.2 then some { e with list_manager := r.1, enter_count := 0 } else none
        else if e.cursor_x = 0 ∧ 0 < e.current_line then
          match pyListGet e.list_manager.items (e.current_line - 1) with
          | none => none
          | some prev_item =>
            let prev_content_length : Int := prev_item.content.length
            let items1 := pyWriteItem e.list_manager.items (e.current_line - 1)
              { prev_item with content := prev_item.content ++ current_item.content }
            let r := ListManager.delete_item { e.list_manager with items := items1 } e.current_line
            if r.2 then
              some { e with list_manager := r.1, current_line := e.current_line - 1,
                            cursor_x := prev_content_length, enter_count := 0 }
            else none
        else if 0 < e.cursor_x then
          let newContent := pySliceTo current_item.content (e.cursor_x - 1) ++
            pySliceFrom current_item.content e.cursor_x
          some { e with
            list_manager := { e.list_manager with
              items := pyWriteItem e.list_manager.items e.current_line
                { current_item with content := newContent } },
            cursor_x := e.cursor_x - 1, enter_count := 0 }
        else some { e with enter_count := 0 }
      else if ch = KEY_DC then
        -- lines 189-195: Delete
        if e.cursor_x < (current_item.content.length : Int) then
          let newContent := pySliceTo current_item.content e.cursor_x ++
            pySliceFrom current_item.content (e.cursor_x + 1)
          some { e with
            list_manager := { e.list_manager with
              items := pyWriteItem e.list_manager.items e.current_line
                { current_item with content := newContent } },
            enter_count := 0 }
        else some { e with enter_count := 0 }
      else if ch = KEY_LEFT then
        -- lines 198-200
        some { e with cursor_x := max 0 (e.cursor_x - 1), enter_count := 0 }
      else if ch = KEY_RIGHT then
        -- lines 201-203
        some { e with cursor_x := min (current_item.content.length : Int) (e.cursor_x + 1),
                      enter_count := 0 }
      else if ch = KEY_UP ∧ 0 < e.current_line then
        -- lines 204-208
        match pyListGet e.list_manager.items (e.current_line - 1) with
        | none => none
        | some tgt =>
          some { e with current_line := e.current_line - 1,
                        cursor_x := min e.cursor_x (tgt.content.length : Int), enter_count := 0 }
      else if ch = KEY_DOWN ∧ e.current_line < (e.list_manager.items.length : Int) - 1 then
        -- lines 209-213
        match pyListGet e.list_manager.items (e.current_line + 1) with
        | none => none
        | some tgt =>
          some { e with current_line := e.current_line + 1,
                        cursor_x := min e.cursor_x (tgt.content.length : Int), enter_count := 0 }
      else if 32 ≤ ch ∧ ch ≤ 126 then
        -- lines 216-223: printable characters
        let newContent := pySliceTo current_item.content e.cursor_x ++
          Char.ofNat ch.toNat :: pySliceFrom current_item.content e.cursor_x
        some { e with
          list_manager := { e.list_manager with
            items := pyWriteItem e.list_manager.items e.current_line
              { current_item with content := newContent } },
          cursor_x := e.cursor_x + 1, enter_count := 0 }
      else
        -- unrecognized key: no branch taken, state unchanged
        some e

/-- The `dd` (delete current line) branch of `Editor.handle_normal_mode`
(Editor.py lines 97-101), taken when `ch = ord d` and the nested blocking
`getch()` also returned `d`; `items` on line 99/101 is the local alias bound
on line 74, which reflects the in-place deletion.  The `Bool` is `false` when
the renumbering pass inside `delete_item` raises (line 101 is then skipped
and the exception propagates). -/
def Editor.handle_normal_dd (e : Editor) : Editor × Bool :=
  if 1 < e.list_manager.items.length then
    let r := e.list_manager.delete_item e.current_line
    if r.2 then
      ({ e with list_manager := r.1,
                current_line := min e.current_line ((r.1.items.length : Int) - 1) }, true)
    else ({ e with list_manager := r.1 }, false)
  else (e, true)

/-! ## Specification-side definitions -/

/-- An item with its derived `number` field cleared: the projection of an
item to the fields `renumber_items` is not allowed to change. -/
def stripNumber (it : ListItem) : ListItem := { it with number := [] }

/-- All item levels lie in the Python-safe range `[0, 10]`. -/
def levelsOk (items : List ListItem) : Bool :=
  items.all fun it => 0 ≤ it.level ∧ it.level ≤ 10

/-- Count, over an already-reversed scan prefix of levels (most recent
first), how many levels equal `l` before the first level strictly below `l`:
the claimed meaning of the counter at position `l`. -/
def countSinceAux (l : Int) : List Int → Nat
  | [] => 0
  | x :: xs => if x < l then 0 else (if x = l then 1 else 0) + countSinceAux l xs

/-- The count of items at level `L i` among positions `j ≤ i` back to (and
not including) the last position before `i` whose level is strictly less
than `L i`. -/
def countSince (L : List Int) (i : Nat) : Nat :=
  countSinceAux (L.getD i 0) ((L.take (i + 1)).reverse)

/-- The number `renumber_items` gives an item, computed purely from the
reversed list of levels up to and including the item: intended model of the
imperative counter scan. -/
def modelNumber (revAll : List Int) (l : Int) : List Char :=
  intercalateDot ((pyRange 0 (l + 1)).map fun k => natToChars (countSinceAux k revAll))

/-- Pure model of the `renumber_items` scan (`rev` is the reversed list of
levels of the items already scanned). -/
def modelRenumber (rev : List Int) : List ListItem → List ListItem
  | [] => []
  | it :: rest =>
    { it with number := modelNumber (it.level :: rev) it.level } ::
      modelRenumber (it.level :: rev) rest

/-- The guard of the branch of `handle_insert_mode` that the key `ch` takes
resets `enter_count` (every handled non-Enter, non-ESC key); `false` for keys
that fall through all branches (unrecognized codes, Up on the first item,
Down on the last item). -/
def insertResets (e : Editor) (ch : Int) : Bool :=
  ch = 9 ∨ ch = KEY_BTAB ∨ ch = KEY_BACKSPACE ∨ ch = 127 ∨ ch = 8 ∨ ch = KEY_DC ∨
  ch = KEY_LEFT ∨ ch = KEY_RIGHT ∨ (ch = KEY_UP ∧ 0 < e.current_line) ∨
  (ch = KEY_DOWN ∧ e.current_line < (e.list_manager.items.length : Int) - 1) ∨
  (32 ≤ ch ∧ ch ≤ 126)

/-- Invariant tying the counter list of the `renumber_items` scan to the
reversed list of levels already scanned. -/
def countersInv (rev : List Int) (counters : List Nat) : Prop :=
  counters.length = 11 ∧
  ∀ l : Int, 0 ≤ l → l < 11 → pyListGet counters l = some (countSinceAux l rev)

/-- Every character of a content string is ASCII (`toNat < 128`): the
character repertoire over which the persistence embedding is faithful. -/
def asciiContent (c : List Char) : Bool :=
  c.all fun ch => ch.toNat < 128

/-- Whitespace-normalized content: the content is recovered unchanged by
splitting on whitespace and re-joining with single spaces (no line breaks,
tabs, leading, trailing or repeated spaces). -/
def contentNormalized (c : List Char) : Bool :=
  joinSpace (pySplit c) = c

/-- `ListManager.toggle_collapse` (lines 149-157). -/
def ListManager.toggle_collapse (m : ListManager) (index : Int) : ListManager :=
  if 0 ≤ index ∧ index < (m.items.length : Int) then
    match m.items[index.toNat]? with
    | some it => { m with items := m.items.set index.toNat { it with collapsed := ¬it.collapsed } }
    | none => m
  else m

/-- A character that can occur in a `renumber_items` number string: a dot or
a decimal digit. -/
def numChar (c : Char) : Prop := c = '.' ∨ ∃ d, d < 10 ∧ c = digitChar d

/-- Well-formedness of a stored `number` string: nonempty and made of digits
and dots (what `renumber_items` in fact produces for levels in `[0, 10]`). -/
def numberWF (n : List Char) : Prop := n ≠ [] ∧ ∀ c ∈ n, numChar c

/-! ## Concrete states used in witnesses and counterexamples -/

/-- Five items with levels `[0, 1, 1, 0, 1]`. -/
def sampleItems : List ListItem :=
  [{ content := ['a'], level := 0 }, { content := ['b'], level := 1 },
   { content := ['c'], level := 1 }, { content := ['d'], level := 0 },
   { content := ['e'], level := 1 }]

/-- A manager holding `sampleItems`, with the insertion cursor at the end. -/
def sampleManager : ListManager := { items := sampleItems, current_position := 5 }

/-- An editor focused on the second of the five sample items. -/
def sampleEditor : Editor :=
  { list_manager := sampleManager, mode := Mode.NORMAL, current_line := 1,
    top_line := 0, cursor_x := 0, enter_count := 0 }

/-- An editor holding a single item. -/
def singleEditor : Editor :=
  { list_manager := { items := [{ content := ['x'], level := 0 }], current_position := 1 },
    mode := Mode.NORMAL, current_line := 0, top_line := 0, cursor_x := 0, enter_count := 0 }

instance : Inhabited Editor := ⟨{}⟩

/-- INSERT-mode editor on the single item `"ab"`, cursor at offset 1, no
pending Enter. -/
def abEditor : Editor :=
  { list_manager := { items := [{ content := ['a', 'b'], level := 0 }], current_position := 1 },
    mode := Mode.INSERT, current_line := 0, top_line := 0, cursor_x := 1, enter_count := 0 }

/-- A consistently numbered one-item document whose content `"a  b"` holds a
double space. -/
def aabManager : ListManager :=
  { items := [{ content := ['a', ' ', ' ', 'b'], level := 0, number := ['1'] }],
    current_position := 1 }

/-- The numbered item `"Buy milk"` at level 0. -/
def buyItem : ListItem :=
  { content := ['B', 'u', 'y', ' ', 'm', 'i', 'l', 'k'], level := 0, number := ['1'] }

/-- The numbered item `"Now"` at level 1. -/
def nowItem : ListItem :=
  { content := ['N', 'o', 'w'], level := 1, number := ['1', '.', '1'] }

/-- A consistently numbered two-item document with whitespace-normalized
ASCII contents (`"Buy milk"` at level 0, `"Now"` at level 1). -/
def roundManager : ListManager :=
  { items := [buyItem, nowItem], current_position := 2 }

/-- The item `"foo"` at level 0. -/
def fooItem : ListItem := { content := ['f', 'o', 'o'], level := 0 }

/-- The item `"bar"` at level 0. -/
def barItem : ListItem := { content := ['b', 'a', 'r'], level := 0 }

/-- INSERT-mode editor on the items `"foo"` and `"bar"` (both level 0),
focused on `"bar"` with the cursor at offset 0. -/
def fbEditor : Editor :=
  { list_manager := { items := [fooItem, barItem], current_position := 2 },
    mode := Mode.INSERT, current_line := 1, top_line := 0, cursor_x := 0, enter_count := 0 }

/-! ## Helper lemmas: Python primitives -/

theorem pyIdx_nonneg {n : Nat} {i : Int} (h0 : 0 ≤ i) (h1 : i < n) :
    pyIdx n i = some i.toNat := by
  simp only [pyIdx]
  rw [if_neg (by omega : ¬i < 0)]
  rw [if_pos ⟨h0, h1⟩]

theorem pyListGet_nonneg {α : Type} (l : List α) {i : Int} (h0 : 0 ≤ i) (h1 : i < l.length) :
    pyListGet l i = l[i.toNat]? := by
  simp [pyListGet, pyIdx_nonneg h0 h1]

theorem pyListSet_nonneg {α : Type} (l : List α) {i : Int} (x : α) (h0 : 0 ≤ i)
    (h1 : i < l.length) : pyListSet l i x = some (l.set i.toNat x) := by
  simp [pyListSet, pyIdx_nonneg h0 h1]

theorem mem_pyRange {a b i : Int} : i ∈ pyRange a b ↔ a ≤ i ∧ i < b := by
  constructor
  · intro h
    obtain ⟨k, hk, hEq⟩ := List.mem_map.mp h
    have hk2 := List.mem_range.mp hk
    have hEq2 : a + (k : Int) = i := hEq
    omega
  · intro h
    refine List.mem_map.mpr ⟨(i - a).toNat, List.mem_range.mpr (by omega), ?_⟩
    show a + ((i - a).toNat : Int) = i
    omega

theorem length_pyRange (a b : Int) : (pyRange a b).length = (b - a).toNat := by
  simp only [pyRange, List.length_map, List.length_range]

theorem getElem?_pyRange (a b : Int) (k : Nat) :
    (pyRange a b)[k]? = if k < (b - a).toNat then some (a + (k : Int)) else none := by
  simp only [pyRange, List.getElem?_map]
  split
  · next h => rw [List.getElem?_range h]; rfl
  · next h =>
    rw [List.getElem?_eq_none (by simpa using Nat.le_of_not_lt h)]
    rfl

/-! ## Helper lemmas: the renumbering pass -/

theorem renumberAux_cons_none {c : List Nat} {it : ListItem} {rest : List ListItem}
    (h : renumberStep c it.level = none) :
    renumberAux c (it :: rest) = (it :: rest, false) := by
  rw [renumberAux, h]

theorem renumberAux_cons_some {c c2 : List Nat} {it : ListItem} {rest : List ListItem}
    {num : List Char} (h : renumberStep c it.level = some (c2, num)) :
    renumberAux c (it :: rest) =
      ({ it with number := num } :: (renumberAux c2 rest).1, (renumberAux c2 rest).2) := by
  rw [renumberAux, h]

/-- `renumber_items` only writes `number` fields: the items stripped of their
numbers are unchanged, whether or not the pass raises. -/
theorem renumberAux_strip (items : List ListItem) :
    ∀ counters, ((renumberAux counters items).1).map stripNumber = items.map stripNumber := by
  induction items with
  | nil => intro c; rfl
  | cons it rest ih =>
    intro c
    cases h : renumberStep c it.level with
    | none => rw [renumberAux_cons_none h]
    | some p =>
      obtain ⟨c2, num⟩ := p
      rw [renumberAux_cons_some h]
      simp only [List.map_cons]
      rw [ih]
      rfl

theorem renumberAux_length (items : List ListItem) (counters : List Nat) :
    (renumberAux counters items).1.length = items.length := by
  have h := congrArg List.length (renumberAux_strip items counters)
  simpa using h

/-- A successful renumbering pass is a fixpoint: running it again assigns the
same numbers. -/
theorem renumberAux_fixpoint (items : List ListItem) :
    ∀ counters, (renumberAux counters items).2 = true →
      renumberAux counters (renumberAux counters items).1 = ((renumberAux counters items).1, true) := by
  induction items with
  | nil => intro c _; rfl
  | cons it rest ih =>
    intro c hok
    cases h : renumberStep c it.level with
    | none =>
      rw [renumberAux_cons_none h] at hok
      simp at hok
    | some p =>
      obtain ⟨c2, num⟩ := p
      rw [renumberAux_cons_some h] at hok ⊢
      have hok2 : (renumberAux c2 rest).2 = true := hok
      have h2 : renumberStep c ({ it with number := num } : ListItem).level = some (c2, num) := h
      dsimp only
      rw [renumberAux_cons_some h2, ih c2 hok2]

theorem pyListGet_set {α : Type} (l : List α) (j : Nat) (x : α) (i : Int) (h0 : 0 ≤ i)
    (hi : i < l.length) (hj : j < l.length) :
    pyListGet (l.set j x) i = if (j : Int) = i then some x else pyListGet l i := by
  rw [pyListGet_nonneg _ h0 (by simpa using hi), pyListGet_nonneg _ h0 hi, List.getElem?_set]
  by_cases h : j = i.toNat
  · rw [if_pos h, if_pos (h ▸ hj), if_pos (by omega)]
  · rw [if_neg h, if_neg (by omega)]

theorem pyListGet_replicate (n : Nat) (v : Nat) (i : Int) (h0 : 0 ≤ i) (hi : i < n) :
    pyListGet (List.replicate n v) i = some v := by
  rw [pyListGet_nonneg _ h0 (by simpa using hi), List.getElem?_replicate, if_pos (by omega)]

theorem countSinceAux_cons (l x : Int) (xs : List Int) :
    countSinceAux l (x :: xs) =
      if x < l then 0 else (if x = l then 1 else 0) + countSinceAux l xs := rfl

theorem setZeros_spec (is : List Int) : ∀ (c : List Nat), c.length = 11 →
    (∀ i ∈ is, 0 ≤ i ∧ i < 11) →
    ∃ z, setZeros c is = some z ∧ z.length = 11 ∧
      ∀ l : Int, 0 ≤ l → l < 11 →
        pyListGet z l = if l ∈ is then some 0 else pyListGet c l := by
  induction is with
  | nil =>
    intro c hlen _
    exact ⟨c, rfl, hlen, fun l _ _ => by simp⟩
  | cons i is ih =>
    intro c hlen his
    have hi := his i (List.mem_cons_self i is)
    have hset : pyListSet c i 0 = some (c.set i.toNat 0) :=
      pyListSet_nonneg c 0 hi.1 (by omega)
    obtain ⟨z, hz, hzlen, hzget⟩ := ih (c.set i.toNat 0) (by simpa using hlen)
      (fun j hj => his j (List.mem_cons_of_mem _ hj))
    refine ⟨z, ?_, hzlen, ?_⟩
    · rw [setZeros, hset]
      exact hz
    · intro l h0 h1
      rw [hzget l h0 h1]
      by_cases hmem : l ∈ is
      · rw [if_pos hmem, if_pos (List.mem_cons_of_mem _ hmem)]
      · rw [if_neg hmem,
          pyListGet_set c i.toNat 0 l h0 (by omega) (by omega)]
        by_cases heq : l = i
        · rw [if_pos (by omega), if_pos (by rw [List.mem_cons]; exact Or.inl heq)]
        · rw [if_neg (by omega), if_neg (by rw [List.mem_cons]; tauto)]

theorem readCounters_spec (c : List Nat) (g : Int → Nat) (is : List Int)
    (h : ∀ i ∈ is, pyListGet c i = some (g i)) :
    readCounters c is = some (is.map g) := by
  induction is with
  | nil => rfl
  | cons i is ih =>
    have h1 := h i (List.mem_cons_self i is)
    rw [readCounters, h1, ih (fun j hj => h j (List.mem_cons_of_mem _ hj))]
    rfl

theorem renumberStep_inv {rev : List Int} {c : List Nat} (hinv : countersInv rev c)
    {lvl : Int} (h0 : 0 ≤ lvl) (h1 : lvl ≤ 10) :
    ∃ c2, renumberStep c lvl = some (c2, modelNumber (lvl :: rev) lvl) ∧
      countersInv (lvl :: rev) c2 := by
  obtain ⟨hlen, hget⟩ := hinv
  obtain ⟨z, hz, hzlen, hzget⟩ := setZeros_spec (pyRange (lvl + 1) 11) c hlen
    (fun i hi => by rw [mem_pyRange] at hi; omega)
  have hzlvl : pyListGet z lvl = some (countSinceAux lvl rev) := by
    rw [hzget lvl h0 (by omega), if_neg (by rw [mem_pyRange]; omega), hget lvl h0 (by omega)]
  have hset : pyListSet z lvl (countSinceAux lvl rev + 1) =
      some (z.set lvl.toNat (countSinceAux lvl rev + 1)) :=
    pyListSet_nonneg z _ h0 (by omega)
  have hc2get : ∀ l : Int, 0 ≤ l → l < 11 →
      pyListGet (z.set lvl.toNat (countSinceAux lvl rev + 1)) l =
        some (countSinceAux l (lvl :: rev)) := by
    intro l hl0 hl1
    rw [pyListGet_set z lvl.toNat _ l hl0 (by omega) (by omega), countSinceAux_cons]
    by_cases heq : l = lvl
    · subst heq
      rw [if_pos (by omega), if_neg (by omega), if_pos rfl]
      exact congrArg some (by omega)
    · rw [if_neg (by omega), hzget l hl0 hl1]
      by_cases hlt : lvl < l
      · rw [if_pos (by rw [mem_pyRange]; omega), if_pos hlt]
      · rw [if_neg (by rw [mem_pyRange]; omega), if_neg hlt, if_neg (by omega),
          hget l hl0 hl1]
        exact congrArg some (by omega)
  refine ⟨z.set lvl.toNat (countSinceAux lvl rev + 1), ?_, by simpa using hzlen, hc2get⟩
  have hread := readCounters_spec (z.set lvl.toNat (countSinceAux lvl rev + 1))
    (fun k => countSinceAux k (lvl :: rev)) (pyRange 0 (lvl + 1))
    (fun i hi => by
      rw [mem_pyRange] at hi
      exact hc2get i hi.1 (by omega))
  rw [renumberStep, hz]
  simp only
  rw [hzlvl]
  simp only
  rw [hset]
  simp only
  rw [hread]
  simp only [modelNumber, List.map_map]
  rfl

theorem countersInv_init : countersInv [] (List.replicate 11 0) := by
  refine ⟨by simp, fun l h0 h1 => ?_⟩
  rw [pyListGet_replicate 11 0 l h0 (by omega)]
  rfl

theorem renumberAux_model (items : List ListItem) :
    ∀ (rev : List Int) (c : List Nat), countersInv rev c →
      (∀ it ∈ items, 0 ≤ it.level ∧ it.level ≤ 10) →
      renumberAux c items = (modelRenumber rev items, true) := by
  induction items with
  | nil => intro rev c _ _; rfl
  | cons it rest ih =>
    intro rev c hinv hlev
    have hl := hlev it (List.mem_cons_self it rest)
    obtain ⟨c2, hstep, hinv2⟩ := renumberStep_inv hinv hl.1 hl.2
    rw [renumberAux_cons_some hstep,
      ih (it.level :: rev) c2 hinv2 (fun x hx => hlev x (List.mem_cons_of_mem _ hx))]
    rfl

/-- On a list whose levels are all in `[0, 10]` the renumbering pass succeeds
and computes the pure model. -/
theorem renumberList_model (items : List ListItem)
    (h : ∀ it ∈ items, 0 ≤ it.level ∧ it.level ≤ 10) :
    renumberList items = (modelRenumber [] items, true) :=
  renumberAux_model items [] (List.replicate 11 0) countersInv_init h

theorem modelRenumber_length (items : List ListItem) :
    ∀ rev, (modelRenumber rev items).length = items.length := by
  induction items with
  | nil => intro rev; rfl
  | cons it rest ih =>
    intro rev
    simp only [modelRenumber, List.length_cons, ih]

theorem modelRenumber_getD (items : List ListItem) :
    ∀ (rev : List Int) (i : Nat), i < items.length →
      (modelRenumber rev items).getD i default =
        { items.getD i default with
            number := modelNumber (((items.map ListItem.level).take (i + 1)).reverse ++ rev)
              ((items.getD i default).level) } := by
  induction items with
  | nil => intro rev i h; simp at h
  | cons it rest ih =>
    intro rev i h
    cases i with
    | zero =>
      simp only [modelRenumber, List.getD_cons_zero, List.map_cons, List.take_succ_cons,
        List.take_zero, List.reverse_cons, List.reverse_nil, List.nil_append,
        List.cons_append, List.nil_append]
    | succ j =>
      have hj : j < rest.length := by simpa using h
      simp only [modelRenumber, List.getD_cons_succ, List.map_cons, List.take_succ_cons,
        List.reverse_cons, List.append_assoc, List.cons_append, List.nil_append]
      exact ih (it.level :: rev) j hj

/-! ## Digit characters and dot-splitting -/

theorem natToCharsAux_mem : ∀ (fuel n : Nat) (acc : List Char) (c : Char),
    c ∈ natToCharsAux fuel n acc → c ∈ acc ∨ ∃ d, d < 10 ∧ c = digitChar d := by
  intro fuel
  induction fuel with
  | zero => intro n acc c hc; exact Or.inl hc
  | succ fuel ih =>
    intro n acc c hc
    rw [natToCharsAux] at hc
    split at hc
    · exact Or.inl hc
    · rcases ih (n / 10) _ c hc with h2 | h2
      · rcases List.mem_cons.mp h2 with h3 | h3
        · exact Or.inr ⟨n % 10, Nat.mod_lt _ (by omega), h3⟩
        · exact Or.inl h3
      · exact Or.inr h2

theorem natToChars_digit (n : Nat) (c : Char) (hc : c ∈ natToChars n) :
    ∃ d, d < 10 ∧ c = digitChar d := by
  rw [natToChars] at hc
  split at hc
  · refine ⟨0, by omega, ?_⟩
    rcases List.mem_singleton.mp hc with h
    rw [h]
    rfl
  · rcases natToCharsAux_mem n n [] c hc with h | h
    · simp at h
    · exact h

theorem digitChar_ne_dot (d : Nat) (h : d < 10) : digitChar d ≠ '.' := by
  interval_cases d <;> decide

theorem not_isSpace_digitChar (d : Nat) (h : d < 10) : isSpace (digitChar d) = false := by
  interval_cases d <;> decide

theorem dot_not_mem_natToChars (n : Nat) : '.' ∉ natToChars n := by
  intro hc
  obtain ⟨d, hd, hEq⟩ := natToChars_digit n '.' hc
  exact digitChar_ne_dot d hd hEq.symm

theorem natToCharsAux_ne_nil : ∀ (fuel n : Nat) (acc : List Char),
    acc ≠ [] ∨ (n ≠ 0 ∧ fuel ≠ 0) → natToCharsAux fuel n acc ≠ [] := by
  intro fuel
  induction fuel with
  | zero =>
    intro n acc h
    rcases h with h | h
    · exact h
    · exact absurd rfl h.2
  | succ fuel ih =>
    intro n acc h
    rw [natToCharsAux]
    split
    · next h0 =>
      rcases h with h | h
      · exact h
      · exact absurd h0 h.1
    · exact ih (n / 10) _ (Or.inl (by simp))

theorem natToChars_ne_nil (n : Nat) : natToChars n ≠ [] := by
  rw [natToChars]
  split
  · simp
  · next h => exact natToCharsAux_ne_nil n n [] (Or.inr ⟨h, h⟩)

theorem splitOnDot_dotfree (p : List Char) (h : '.' ∉ p) : splitOnDot p = [p] := by
  induction p with
  | nil => rfl
  | cons c cs ih =>
    rw [splitOnDot,
      if_neg (fun hc => h (by rw [← hc]; exact List.mem_cons_self c cs)),
      ih (fun hc => h (List.mem_cons_of_mem _ hc))]

theorem intercalateDot_cons₂ (p q : List Char) (qs : List (List Char)) :
    intercalateDot (p :: q :: qs) = p ++ '.' :: intercalateDot (q :: qs) := rfl

theorem splitOnDot_append (p t : List Char) (h : '.' ∉ p) :
    splitOnDot (p ++ '.' :: t) = p :: splitOnDot t := by
  induction p with
  | nil => simp [splitOnDot]
  | cons c cs ih =>
    rw [List.cons_append, splitOnDot,
      if_neg (fun hc => h (by rw [← hc]; exact List.mem_cons_self c cs)),
      ih (fun hc => h (List.mem_cons_of_mem _ hc))]

theorem splitOnDot_intercalateDot (ps : List (List Char)) :
    ps ≠ [] → (∀ p ∈ ps, '.' ∉ p) → splitOnDot (intercalateDot ps) = ps := by
  induction ps with
  | nil => intro h _; cases h rfl
  | cons p ps ih =>
    intro _ hdf
    cases ps with
    | nil => exact splitOnDot_dotfree p (hdf p (List.mem_cons_self p []))
    | cons q qs =>
      rw [intercalateDot_cons₂,
        splitOnDot_append p _ (hdf p (List.mem_cons_self p _)),
        ih (by simp) (fun x hx => hdf x (List.mem_cons_of_mem _ hx))]

theorem getD_mem_of_lt {α : Type} [Inhabited α] (l : List α) (i : Nat) (h : i < l.length) :
    l.getD i default ∈ l := by
  rw [List.getD_eq_getElem?_getD, List.getElem?_eq_getElem h]
  exact List.getElem_mem h

theorem getD_map_level (items : List ListItem) (i : Nat) (h : i < items.length) :
    (items.map ListItem.level).getD i 0 = (items.getD i default).level := by
  rw [List.getD_eq_getElem?_getD, List.getD_eq_getElem?_getD, List.getElem?_map,
    List.getElem?_eq_getElem h]
  rfl

theorem modelNumber_parts (revAll : List Int) (l : Int) (h0 : 0 ≤ l) :
    splitOnDot (modelNumber revAll l) =
      (pyRange 0 (l + 1)).map fun k => natToChars (countSinceAux k revAll) := by
  rw [modelNumber]
  apply splitOnDot_intercalateDot
  · intro hnil
    have hlen := congrArg List.length hnil
    simp only [List.length_map, length_pyRange, List.length_nil] at hlen
    omega
  · intro p hp
    obtain ⟨k, _, hpk⟩ := List.mem_map.mp hp
    rw [← hpk]
    exact dot_not_mem_natToChars _

/-! ## Claim C1 -/

/-- **C1**: for every sequence of items whose levels are in `[0, 10]`, after
`renumber_items()` item `i`'s number string has exactly `level i + 1`
dot-separated components, and the component at position `level i` is the
decimal rendering of the count of items at level `level i` since the last
preceding item at a strictly smaller level (counting item `i` itself). -/
theorem C1_renumber_numbering (m : ListManager)
    (hlev : ∀ it ∈ m.items, 0 ≤ it.level ∧ it.level ≤ 10) :
    m.renumber_items.2 = true ∧
    m.renumber_items.1.items.length = m.items.length ∧
    ∀ i : Nat, i < m.items.length →
      (splitOnDot ((m.renumber_items.1.items.getD i default).number)).length =
        (m.items.getD i default).level.toNat + 1 ∧
      (splitOnDot ((m.renumber_items.1.items.getD i default).number)).getD
          (m.items.getD i default).level.toNat [] =
        natToChars (countSince (m.items.map ListItem.level) i) := by
  have hmodel := renumberList_model m.items hlev
  have hru : m.renumber_items = ({ m with items := modelRenumber [] m.items }, true) := by
    rw [ListManager.renumber_items, hmodel]
  rw [hru]
  refine ⟨rfl, by simpa using modelRenumber_length m.items [], ?_⟩
  intro i hi
  have hl : 0 ≤ (m.items.getD i default).level ∧ (m.items.getD i default).level ≤ 10 :=
    hlev _ (getD_mem_of_lt m.items i hi)
  have hgi := modelRenumber_getD m.items [] i hi
  simp only [List.append_nil] at hgi
  have hnum : ((modelRenumber [] m.items).getD i default).number =
      modelNumber (((m.items.map ListItem.level).take (i + 1)).reverse)
        ((m.items.getD i default).level) := by
    rw [hgi]
  rw [hnum, modelNumber_parts _ _ hl.1]
  constructor
  · rw [List.length_map, length_pyRange]
    omega
  · rw [List.getD_eq_getElem?_getD, List.getElem?_map, getElem?_pyRange,
      if_pos (by omega : (m.items.getD i default).level.toNat <
        ((m.items.getD i default).level + 1 - 0).toNat)]
    have hcast : (0 : Int) + ((m.items.getD i default).level.toNat : Int) =
        (m.items.getD i default).level := by omega
    rw [Option.map_some', Option.getD_some, hcast, countSince,
      getD_map_level m.items i hi]

/-- Witness for `C1_renumber_numbering` at levels `[0, 1, 1, 0, 1]`, whose
numbers come out as `1, 1.1, 1.2, 2, 2.1`. -/
theorem C1_renumber_numbering_witness :
    (∀ it ∈ sampleManager.items, 0 ≤ it.level ∧ it.level ≤ 10) ∧
    (sampleManager.renumber_items.1.items.map ListItem.number =
      [['1'], ['1', '.', '1'], ['1', '.', '2'], ['2'], ['2', '.', '1']]) ∧
    (sampleManager.renumber_items.2 = true ∧
     sampleManager.renumber_items.1.items.length = sampleManager.items.length ∧
     ∀ i : Nat, i < sampleManager.items.length →
       (splitOnDot ((sampleManager.renumber_items.1.items.getD i default).number)).length =
         (sampleManager.items.getD i default).level.toNat + 1 ∧
       (splitOnDot ((sampleManager.renumber_items.1.items.getD i default).number)).getD
           (sampleManager.items.getD i default).level.toNat [] =
         natToChars (countSince (sampleManager.items.map ListItem.level) i)) :=
  ⟨by decide, by decide, C1_renumber_numbering sampleManager (by decide)⟩

/-! ## Claim C10 -/

/-- **C10**: on a list state whose levels are all in `[0, 10]`,
`renumber_items` succeeds and writes only the `number` field of each item
(content, level, collapsed, identity and metadata are unchanged, length and
order are preserved), leaves `current_position` unchanged, and is idempotent:
an immediately repeated call returns the same state. -/
theorem C10_renumber_frame (m : ListManager)
    (hlev : ∀ it ∈ m.items, 0 ≤ it.level ∧ it.level ≤ 10) :
    m.renumber_items.2 = true ∧
    m.renumber_items.1.items.map stripNumber = m.items.map stripNumber ∧
    m.renumber_items.1.items.length = m.items.length ∧
    m.renumber_items.1.current_position = m.current_position ∧
    m.renumber_items.1.renumber_items = (m.renumber_items.1, true) := by
  have hmodel := renumberList_model m.items hlev
  have hok : (renumberList m.items).2 = true := by rw [hmodel]
  refine ⟨hok, renumberAux_strip m.items _, renumberAux_length m.items _, rfl, ?_⟩
  have hfix := renumberAux_fixpoint m.items (List.replicate 11 0) hok
  show ({ m with items := (renumberList ({ m with items := (renumberList m.items).1 } :
      ListManager).items).1 }, (renumberList ({ m with items := (renumberList m.items).1 } :
      ListManager).items).2) = _
  rw [show ({ m with items := (renumberList m.items).1 } : ListManager).items =
    (renumberList m.items).1 from rfl]
  rw [show renumberList (renumberList m.items).1 = ((renumberList m.items).1, true) from hfix]
  rfl

/-- Witness for `C10_renumber_frame` at the sample manager. -/
theorem C10_renumber_frame_witness :
    (∀ it ∈ sampleManager.items, 0 ≤ it.level ∧ it.level ≤ 10) ∧
    (sampleManager.renumber_items.2 = true ∧
     sampleManager.renumber_items.1.items.map stripNumber =
       sampleManager.items.map stripNumber ∧
     sampleManager.renumber_items.1.items.length = sampleManager.items.length ∧
     sampleManager.renumber_items.1.current_position = sampleManager.current_position ∧
     sampleManager.renumber_items.1.renumber_items = (sampleManager.renumber_items.1, true)) :=
  ⟨by decide, C10_renumber_frame sampleManager (by decide)⟩

/-! ## Helper lemmas: the mutation operations -/

theorem pyInsertIdx_le (n : Nat) (i : Int) : pyInsertIdx n i ≤ n := by
  simp only [pyInsertIdx]
  split <;> omega

theorem length_pyInsert {α : Type} (l : List α) (i : Int) (x : α) :
    (pyInsert l i x).length = l.length + 1 := by
  have h := pyInsertIdx_le l.length i
  simp only [pyInsert, List.length_append, List.length_cons, List.length_take,
    List.length_drop]
  omega

theorem pyInsert_nonneg {α : Type} (l : List α) (i : Int) (x : α) (h0 : 0 ≤ i)
    (h1 : i ≤ l.length) :
    pyInsert l i x = l.take i.toNat ++ x :: l.drop i.toNat := by
  simp only [pyInsert, pyInsertIdx]
  rw [if_neg (by omega : ¬i < 0), min_eq_left (by omega : i.toNat ≤ l.length)]

theorem renumberList_length (items : List ListItem) :
    (renumberList items).1.length = items.length :=
  renumberAux_length items _

theorem length_insertedItems (m : ListManager) (x : ListItem) :
    (insertedItems m x).length = m.items.length + 1 := by
  rw [insertedItems]
  split
  · rw [length_pyInsert]
  · simp

theorem insertedItems_eq (m : ListManager) (x : ListItem)
    (h0 : 0 ≤ m.current_position) (h1 : m.current_position ≤ (m.items.length : Int)) :
    insertedItems m x =
      m.items.take m.current_position.toNat ++ x :: m.items.drop m.current_position.toNat := by
  rw [insertedItems]
  split
  · exact pyInsert_nonneg m.items m.current_position x h0 h1
  · next h =>
    have hEq : m.current_position.toNat = m.items.length := by omega
    rw [hEq, List.take_length, List.drop_length]

theorem insertIndex_eq (m : ListManager) (h0 : 0 ≤ m.current_position)
    (h1 : m.current_position ≤ (m.items.length : Int)) :
    insertIndex m = m.current_position.toNat := by
  rw [insertIndex]
  split
  · rw [pyInsertIdx, if_neg (by omega : ¬m.current_position < 0)]
    omega
  · omega

/-- `add_item` with an explicit level never consults the recommendation and
leaves this state, whether or not the renumbering pass raises. -/
theorem add_item_state_some (m : ListManager) (content : List Char) (lvl : Int) :
    (m.add_item content (some lvl)).1 =
      { items := (renumberList (insertedItems m { content := content, level := lvl })).1,
        current_position := m.current_position + 1 } := rfl

/-- The value `add_item` with an explicit level returns. -/
theorem add_item_ret_some (m : ListManager) (content : List Char) (lvl : Int) :
    (m.add_item content (some lvl)).2 =
      (if (renumberList (insertedItems m { content := content, level := lvl })).2 = true
       then (renumberList (insertedItems m { content := content, level := lvl })).1[insertIndex m]?
       else none) := rfl

theorem add_item_none_of_rec_none (m : ListManager) (content : List Char)
    (h : m.get_recommended_level = none) : m.add_item content none = (m, none) := by
  unfold ListManager.add_item
  rw [h]

theorem add_item_none_eq_some (m : ListManager) (content : List Char) {lvl : Int}
    (h : m.get_recommended_level = some lvl) :
    m.add_item content none = m.add_item content (some lvl) := by
  unfold ListManager.add_item
  rw [h]

theorem add_item_pos_len (m : ListManager) (content : List Char) (lvl : Int) :
    (m.add_item content (some lvl)).1.current_position = m.current_position + 1 ∧
    (m.add_item content (some lvl)).1.items.length = m.items.length + 1 := by
  rw [add_item_state_some]
  exact ⟨rfl, by simp only [renumberList_length, length_insertedItems]⟩

theorem loadLines_pos_eq (lines : List (List Char)) : ∀ m : ListManager,
    m.current_position = (m.items.length : Int) →
    (loadLines m lines).1.current_position = ((loadLines m lines).1.items.length : Int) := by
  induction lines with
  | nil => intro m h; exact h
  | cons line rest ih =>
    intro m h
    rw [loadLines]
    split
    · exact ih m h
    · have hkey : (m.add_item (loadContent line) (some (loadLevel line))).1.current_position =
          (((m.add_item (loadContent line) (some (loadLevel line))).1.items.length : Int)) := by
        obtain ⟨h1, h2⟩ := add_item_pos_len m (loadContent line) (loadLevel line)
        rw [h1, h2]
        omega
      cases hp : m.add_item (loadContent line) (some (loadLevel line)) with
      | mk m1 o =>
        have hm1 : m1.current_position = (m1.items.length : Int) := by
          rw [hp] at hkey
          exact hkey
        cases o with
        | some it => exact ih m1 hm1
        | none => exact hm1

theorem renumberAux_levels (items : List ListItem) (c : List Nat) :
    (renumberAux c items).1.map ListItem.level = items.map ListItem.level := by
  have h := congrArg (List.map ListItem.level) (renumberAux_strip items c)
  rw [List.map_map, List.map_map] at h
  exact h

theorem renumberAux_contents (items : List ListItem) (c : List Nat) :
    (renumberAux c items).1.map ListItem.content = items.map ListItem.content := by
  have h := congrArg (List.map ListItem.content) (renumberAux_strip items c)
  rw [List.map_map, List.map_map] at h
  exact h

theorem forall_level_of_map_eq {P : Int → Prop} {l1 l2 : List ListItem}
    (h : l1.map ListItem.level = l2.map ListItem.level)
    (h2 : ∀ it ∈ l2, P it.level) : ∀ it ∈ l1, P it.level := by
  intro it hit
  have hmem : it.level ∈ l1.map ListItem.level := List.mem_map_of_mem _ hit
  rw [h] at hmem
  obtain ⟨y, hy, hEq⟩ := List.mem_map.mp hmem
  exact hEq ▸ h2 y hy

theorem indent_item_state (m : ListManager) (index : Int) :
    (m.indent_item index).1.current_position = m.current_position ∧
    (m.indent_item index).1.items.length = m.items.length := by
  rw [ListManager.indent_item]
  split
  · cases hit : m.items[index.toNat]? with
    | some it =>
      refine ⟨rfl, ?_⟩
      show (renumberList (m.items.set index.toNat _)).1.length = _
      rw [renumberList_length, List.length_set]
    | none => exact ⟨rfl, rfl⟩
  · exact ⟨rfl, rfl⟩

theorem outdent_item_state (m : ListManager) (index : Int) :
    (m.outdent_item index).1.current_position = m.current_position ∧
    (m.outdent_item index).1.items.length = m.items.length := by
  rw [ListManager.outdent_item]
  split
  · cases hit : m.items[index.toNat]? with
    | some it =>
      refine ⟨rfl, ?_⟩
      show (renumberList (m.items.set index.toNat _)).1.length = _
      rw [renumberList_length, List.length_set]
    | none => exact ⟨rfl, rfl⟩
  · exact ⟨rfl, rfl⟩

/-! ## Claim C7 -/

/-- **C7** is FALSE as stated: `delete_item` on the single remaining item
sets `current_position = min(current_position, len(items) - 1) = -1`. -/
theorem C7_counterexample :
    (ListManager.delete_item
        { items := [{ content := ['x'], level := 0 }], current_position := 1 }
        0).1.current_position = -1 ∧
    ¬(0 ≤ (ListManager.delete_item
        { items := [{ content := ['x'], level := 0 }], current_position := 1 }
        0).1.current_position) := by
  decide

/-- **C7** (amended): after `add_item`, `indent_item`, `outdent_item`,
`load_from_file`, and any `delete_item` call that is a no-op or leaves at
least one item, `0 ≤ current_position ≤ len(items)` still holds; only
`delete_item` emptying the list breaks it (reaching `-1`, see the
counterexample). -/
theorem C7_position_invariant (m : ListManager) (content : List Char) (lev : Option Int)
    (index : Int) (f : List Char)
    (hpos : 0 ≤ m.current_position ∧ m.current_position ≤ (m.items.length : Int))
    (hlev : ∀ it ∈ m.items, 0 ≤ it.level ∧ it.level ≤ 10) :
    (0 ≤ (m.add_item content lev).1.current_position ∧
      (m.add_item content lev).1.current_position ≤
        ((m.add_item content lev).1.items.length : Int)) ∧
    ((¬(0 ≤ index ∧ index < (m.items.length : Int)) ∨ 2 ≤ m.items.length) →
      (0 ≤ (m.delete_item index).1.current_position ∧
        (m.delete_item index).1.current_position ≤
          ((m.delete_item index).1.items.length : Int))) ∧
    (0 ≤ (m.indent_item index).1.current_position ∧
      (m.indent_item index).1.current_position ≤
        ((m.indent_item index).1.items.length : Int)) ∧
    (0 ≤ (m.outdent_item index).1.current_position ∧
      (m.outdent_item index).1.current_position ≤
        ((m.outdent_item index).1.items.length : Int)) ∧
    (0 ≤ (ListManager.load_from_file f).1.current_position ∧
      (ListManager.load_from_file f).1.current_position ≤
        ((ListManager.load_from_file f).1.items.length : Int)) := by
  refine ⟨?_, ?_, ?_, ?_, ?_⟩
  · cases lev with
    | some lvl =>
      obtain ⟨h1, h2⟩ := add_item_pos_len m content lvl
      rw [h1, h2]
      omega
    | none =>
      cases hrec : m.get_recommended_level with
      | none =>
        rw [add_item_none_of_rec_none m content hrec]
        exact hpos
      | some lvl =>
        rw [add_item_none_eq_some m content hrec]
        obtain ⟨h1, h2⟩ := add_item_pos_len m content lvl
        rw [h1, h2]
        omega
  · intro hcase
    by_cases hguard : 0 ≤ index ∧ index < (m.items.length : Int)
    · have hlen2 : 2 ≤ m.items.length := by tauto
      have hsub : ∀ it ∈ m.items.eraseIdx index.toNat, 0 ≤ it.level ∧ it.level ≤ 10 :=
        fun it hit => hlev it ((List.eraseIdx_sublist m.items index.toNat).subset hit)
      have hr := renumberList_model (m.items.eraseIdx index.toNat) hsub
      rw [ListManager.delete_item, if_pos hguard]
      dsimp only
      rw [hr, if_pos rfl]
      have hL : (modelRenumber [] (m.items.eraseIdx index.toNat)).length =
          m.items.length - 1 := by
        rw [modelRenumber_length, List.length_eraseIdx_of_lt (by omega)]
      show 0 ≤ min m.current_position _ ∧ min m.current_position _ ≤ _
      rw [hL]
      constructor <;> [skip; skip] <;> omega
    · rw [ListManager.delete_item, if_neg hguard]
      exact hpos
  · obtain ⟨h1, h2⟩ := indent_item_state m index
    rw [h1, h2]
    exact hpos
  · obtain ⟨h1, h2⟩ := outdent_item_state m index
    rw [h1, h2]
    exact hpos
  · have h := loadLines_pos_eq (pyLines f) { items := [], current_position := 0 } rfl
    constructor
    · rw [show (ListManager.load_from_file f).1.current_position =
        ((ListManager.load_from_file f).1.items.length : Int) from h]
      omega
    · rw [show (ListManager.load_from_file f).1.current_position =
        ((ListManager.load_from_file f).1.items.length : Int) from h]

/-- Witness for `C7_position_invariant` at the sample manager. -/
theorem C7_position_invariant_witness :
    (0 ≤ sampleManager.current_position ∧
      sampleManager.current_position ≤ (sampleManager.items.length : Int)) ∧
    ((0 ≤ (sampleManager.add_item ['z'] none).1.current_position ∧
      (sampleManager.add_item ['z'] none).1.current_position ≤
        ((sampleManager.add_item ['z'] none).1.items.length : Int)) ∧
    ((¬((0:Int) ≤ 0 ∧ (0:Int) < (sampleManager.items.length : Int)) ∨
        2 ≤ sampleManager.items.length) →
      (0 ≤ (sampleManager.delete_item 0).1.current_position ∧
        (sampleManager.delete_item 0).1.current_position ≤
          ((sampleManager.delete_item 0).1.items.length : Int))) ∧
    (0 ≤ (sampleManager.indent_item 0).1.current_position ∧
      (sampleManager.indent_item 0).1.current_position ≤
        ((sampleManager.indent_item 0).1.items.length : Int)) ∧
    (0 ≤ (sampleManager.outdent_item 0).1.current_position ∧
      (sampleManager.outdent_item 0).1.current_position ≤
        ((sampleManager.outdent_item 0).1.items.length : Int)) ∧
    (0 ≤ (ListManager.load_from_file ['1', ' ', 'a', '\n']).1.current_position ∧
      (ListManager.load_from_file ['1', ' ', 'a', '\n']).1.current_position ≤
        ((ListManager.load_from_file ['1', ' ', 'a', '\n']).1.items.length : Int))) :=
  ⟨by decide,
   C7_position_invariant sampleManager ['z'] none 0 ['1', ' ', 'a', '\n']
     (by decide) (by decide)⟩

/-! ## Claim C6 -/

theorem renumberList_strip (items : List ListItem) :
    (renumberList items).1.map stripNumber = items.map stripNumber :=
  renumberAux_strip items _

/-- Shared success-path description of `add_item` at a fixed in-range
level. -/
theorem add_item_default_core (m : ListManager) (content : List Char) (lvl : Int)
    (hpos : 0 ≤ m.current_position ∧ m.current_position ≤ (m.items.length : Int))
    (hlev : ∀ it ∈ m.items, 0 ≤ it.level ∧ it.level ≤ 10)
    (hlvl : 0 ≤ lvl ∧ lvl ≤ 10) :
    (m.add_item content (some lvl)).2.map stripNumber =
      some { content := content, level := lvl } ∧
    (m.add_item content (some lvl)).1.current_position = m.current_position + 1 ∧
    (m.add_item content (some lvl)).1.items.length = m.items.length + 1 ∧
    (m.add_item content (some lvl)).1.items.map stripNumber =
      (m.items.take m.current_position.toNat ++ { content := content, level := lvl } ::
        m.items.drop m.current_position.toNat).map stripNumber := by
  have hins := insertedItems_eq m { content := content, level := lvl } hpos.1 hpos.2
  have hsub : ∀ it ∈ insertedItems m { content := content, level := lvl },
      0 ≤ it.level ∧ it.level ≤ 10 := by
    intro it hit
    rw [hins] at hit
    rcases List.mem_append.mp hit with h | h
    · exact hlev it (List.take_subset _ _ h)
    · rcases List.mem_cons.mp h with h | h
      · rw [h]
        exact hlvl
      · exact hlev it (List.drop_subset _ _ h)
  have hok : (renumberList (insertedItems m { content := content, level := lvl })).2 = true := by
    rw [renumberList_model _ hsub]
  have h2 : (insertedItems m { content := content, level := lvl })[m.current_position.toNat]? =
      some { content := content, level := lvl } := by
    rw [hins, List.getElem?_append_right (by rw [List.length_take]; omega), List.length_take]
    have h3 : m.current_position.toNat - min m.current_position.toNat m.items.length = 0 := by
      omega
    rw [h3]
    simp
  refine ⟨?_, (add_item_pos_len m content lvl).1, (add_item_pos_len m content lvl).2, ?_⟩
  · rw [add_item_ret_some, if_pos hok, insertIndex_eq m hpos.1 hpos.2,
      ← List.getElem?_map, renumberList_strip, List.getElem?_map, h2]
    rfl
  · rw [add_item_state_some]
    show (renumberList _).1.map stripNumber = _
    rw [renumberList_strip, hins]

theorem pyListGet_eq_getD {α : Type} [Inhabited α] (l : List α) (i : Int) (h0 : 0 ≤ i)
    (h1 : i < l.length) : pyListGet l i = some (l.getD i.toNat default) := by
  rw [pyListGet_nonneg l h0 h1, List.getD_eq_getElem?_getD,
    List.getElem?_eq_getElem (by omega)]
  rfl

/-- **C6** is FALSE as stated: with `current_position = 2` on a one-element
list, `add_item` without a level argument evaluates
`self.items[self.current_position - 1] = items[1]`, which raises
`IndexError`; nothing is inserted and `current_position` does not advance. -/
theorem C6_counterexample :
    (ListManager.add_item
      { items := [{ content := ['x'], level := 0 }], current_position := 2 } [] none).2 =
        none ∧
    (ListManager.add_item
      { items := [{ content := ['x'], level := 0 }], current_position := 2 } [] none).1 =
      { items := [{ content := ['x'], level := 0 }], current_position := 2 } := by
  decide

/-- **C6** (amended): provided `0 ≤ current_position ≤ len(items)` (levels in
`[0, 10]` so renumbering cannot raise), `add_item` without a level argument
never raises: the new item gets the level of the item at index
`current_position - 1`, or level `0` when the list is empty or
`current_position` is `0`; it is inserted at `current_position` (so appended
at the end when `current_position = len(items)`), `current_position` advances
by exactly `1`, and the new item is returned.  When
`current_position > len(items)` on a nonempty list, the call raises
`IndexError` instead (see the counterexample). -/
theorem C6_add_item_default (m : ListManager) (content : List Char)
    (hpos : 0 ≤ m.current_position ∧ m.current_position ≤ (m.items.length : Int))
    (hlev : ∀ it ∈ m.items, 0 ≤ it.level ∧ it.level ≤ 10) :
    (m.add_item content none).2.map stripNumber =
      some { content := content,
             level := if m.items.length = 0 ∨ m.current_position = 0 then 0
               else (m.items.getD (m.current_position - 1).toNat default).level } ∧
    (m.add_item content none).1.current_position = m.current_position + 1 ∧
    (m.add_item content none).1.items.length = m.items.length + 1 ∧
    (m.add_item content none).1.items.map stripNumber =
      (m.items.take m.current_position.toNat ++
        { content := content,
          level := if m.items.length = 0 ∨ m.current_position = 0 then 0
            else (m.items.getD (m.current_position - 1).toNat default).level } ::
        m.items.drop m.current_position.toNat).map stripNumber := by
  by_cases hc : m.items.length = 0 ∨ m.current_position = 0
  case neg =>
    have hrec : m.get_recommended_level =
        some ((m.items.getD (m.current_position - 1).toNat default).level) := by
      rw [ListManager.get_recommended_level, if_neg hc,
        pyListGet_eq_getD m.items (m.current_position - 1) (by omega) (by omega)]
      rfl
    rw [if_neg hc, add_item_none_eq_some m content hrec]
    have hlvl : 0 ≤ (m.items.getD (m.current_position - 1).toNat default).level ∧
        (m.items.getD (m.current_position - 1).toNat default).level ≤ 10 :=
      hlev _ (getD_mem_of_lt m.items _ (by omega))
    exact add_item_default_core m content _ hpos hlev hlvl
  case pos =>
    have hrec : m.get_recommended_level = some 0 := by
      rw [ListManager.get_recommended_level, if_pos hc]
    rw [if_pos hc, add_item_none_eq_some m content hrec]
    exact add_item_default_core m content 0 hpos hlev (by omega)

/-- Witness for `C6_add_item_default` at the sample manager (insertion at the
end after an item of level `1`). -/
theorem C6_add_item_default_witness :
    ((0 ≤ sampleManager.current_position ∧
        sampleManager.current_position ≤ (sampleManager.items.length : Int)) ∧
      (∀ it ∈ sampleManager.items, 0 ≤ it.level ∧ it.level ≤ 10)) ∧
    ((sampleManager.add_item ['z'] none).2.map stripNumber =
      some { content := ['z'],
             level := if sampleManager.items.length = 0 ∨
                 sampleManager.current_position = 0 then 0
               else (sampleManager.items.getD
                 (sampleManager.current_position - 1).toNat default).level } ∧
    (sampleManager.add_item ['z'] none).1.current_position =
      sampleManager.current_position + 1 ∧
    (sampleManager.add_item ['z'] none).1.items.length = sampleManager.items.length + 1 ∧
    (sampleManager.add_item ['z'] none).1.items.map stripNumber =
      (sampleManager.items.take sampleManager.current_position.toNat ++
        { content := ['z'],
          level := if sampleManager.items.length = 0 ∨
              sampleManager.current_position = 0 then 0
            else (sampleManager.items.getD
              (sampleManager.current_position - 1).toNat default).level } ::
        sampleManager.items.drop sampleManager.current_position.toNat).map stripNumber) :=
  ⟨⟨by decide, by decide⟩, C6_add_item_default sampleManager ['z'] (by decide) (by decide)⟩

/-! ## Claim C3 -/

theorem pyIdx_some_bounds {n : Nat} {i : Int} {j : Nat} (h : pyIdx n i = some j) :
    -(n : Int) ≤ i ∧ i < n := by
  simp only [pyIdx] at h
  split at h <;> split at h
  case isTrue.isTrue h1 h2 => omega
  case isTrue.isFalse => exact absurd h (by simp)
  case isFalse.isTrue h1 h2 => omega
  case isFalse.isFalse => exact absurd h (by simp)

theorem pyListGet_mem {α : Type} {l : List α} {i : Int} {x : α}
    (h : pyListGet l i = some x) : x ∈ l := by
  simp only [pyListGet] at h
  cases hidx : pyIdx l.length i with
  | none => rw [hidx] at h; exact absurd h (by simp)
  | some j =>
    rw [hidx] at h
    simp only [Option.some_bind] at h
    obtain ⟨hj, hEq⟩ := List.getElem?_eq_some_iff.mp h
    exact hEq ▸ List.getElem_mem hj

theorem pyListSet_some_length {α : Type} {l z : List α} {i : Int} {x : α}
    (h : pyListSet l i x = some z) : z.length = l.length := by
  simp only [pyListSet] at h
  cases hidx : pyIdx l.length i with
  | none => rw [hidx] at h; exact absurd h (by simp)
  | some j =>
    rw [hidx] at h
    simp only [Option.map_some'] at h
    rw [← Option.some.inj h]
    simp

theorem setZeros_some_length : ∀ (is : List Int) (c z : List Nat),
    setZeros c is = some z → z.length = c.length := by
  intro is
  induction is with
  | nil =>
    intro c z h
    rw [← Option.some.inj h]
  | cons i is ih =>
    intro c z h
    rw [setZeros] at h
    split at h
    · next c1 hset =>
      rw [ih c1 z h, pyListSet_some_length hset]
    · exact absurd h (by simp)

theorem renumberStep_some_facts {c : List Nat} {lvl : Int} {p : List Nat × List Char}
    (hlen : c.length = 11) (h : renumberStep c lvl = some p) :
    (-11 ≤ lvl ∧ lvl < 11) ∧ p.1.length = 11 := by
  rw [renumberStep] at h
  split at h
  · exact absurd h (by simp)
  · next c1 hz =>
    have hc1 : c1.length = 11 := by rw [setZeros_some_length _ _ _ hz, hlen]
    split at h
    · exact absurd h (by simp)
    · next v hg =>
      have hbounds : -11 ≤ lvl ∧ lvl < 11 := by
        simp only [pyListGet] at hg
        cases hidx : pyIdx c1.length lvl with
        | none => rw [hidx] at hg; exact absurd hg (by simp)
        | some j =>
          have hb := pyIdx_some_bounds hidx
          omega
      refine ⟨hbounds, ?_⟩
      split at h
      · exact absurd h (by simp)
      · next c2 hset =>
        split at h
        · exact absurd h (by simp)
        · next vals hrd =>
          have hp : (c2, intercalateDot (vals.map natToChars)) = p := Option.some.inj h
          rw [← hp]
          show c2.length = 11
          rw [pyListSet_some_length hset, hc1]

theorem renumberAux_true_levels : ∀ (items : List ListItem) (c : List Nat),
    c.length = 11 → (renumberAux c items).2 = true →
    ∀ it ∈ items, -11 ≤ it.level ∧ it.level < 11 := by
  intro items
  induction items with
  | nil => intro c _ _ it hit; simp at hit
  | cons x rest ih =>
    intro c hlen hok it hit
    cases hstep : renumberStep c x.level with
    | none =>
      rw [renumberAux_cons_none hstep] at hok
      simp at hok
    | some p =>
      rw [renumberAux_cons_some hstep] at hok
      obtain ⟨hx, hplen⟩ := renumberStep_some_facts hlen hstep
      rcases List.mem_cons.mp hit with h | h
      · rw [h]; exact hx
      · exact ih p.1 hplen hok it h

theorem mem_insertedItems {m : ListManager} {x it : ListItem}
    (h : it ∈ insertedItems m x) : it ∈ m.items ∨ it = x := by
  rw [insertedItems] at h
  split at h
  · simp only [pyInsert] at h
    rcases List.mem_append.mp h with h | h
    · exact Or.inl (List.take_subset _ _ h)
    · rcases List.mem_cons.mp h with h | h
      · exact Or.inr h
      · exact Or.inl (List.drop_subset _ _ h)
  · rcases List.mem_append.mp h with h | h
    · exact Or.inl h
    · exact Or.inr (List.mem_singleton.mp h)

theorem renumberList_levels (items : List ListItem) :
    (renumberList items).1.map ListItem.level = items.map ListItem.level :=
  renumberAux_levels items _

theorem loadLevel_nonneg (line : List Char) : 0 ≤ loadLevel line := by
  rw [loadLevel]
  have h : (pyLstrip line).length ≤ line.length :=
    (List.dropWhile_sublist (l := line) isSpace).length_le
  exact Int.fdiv_nonneg (by omega) (by omega)

/-- `add_item` with an explicit level preserves the property that all item
levels are nonnegative and below 11, provided the given level is. -/
theorem add_item_some_levels {m : ListManager} (content : List Char) {lvl : Int}
    (hlev : ∀ it ∈ m.items, 0 ≤ it.level ∧ it.level < 11)
    (hl : 0 ≤ lvl) (hok : (m.add_item content (some lvl)).2.isSome = true) :
    ∀ it ∈ (m.add_item content (some lvl)).1.items, 0 ≤ it.level ∧ it.level < 11 := by
  have hr2 : (renumberList (insertedItems m { content := content, level := lvl })).2 = true := by
    rw [add_item_ret_some] at hok
    by_cases hb : (renumberList (insertedItems m { content := content, level := lvl })).2 = true
    · exact hb
    · rw [if_neg hb] at hok
      simp at hok
  have hbounds := renumberAux_true_levels
    (insertedItems m { content := content, level := lvl }) (List.replicate 11 0)
    (by simp) hr2
  rw [add_item_state_some]
  show ∀ it ∈ (renumberList (insertedItems m { content := content, level := lvl })).1,
    0 ≤ it.level ∧ it.level < 11
  refine forall_level_of_map_eq (P := fun l => 0 ≤ l ∧ l < 11) (renumberList_levels _) ?_
  intro it hit
  have hge : 0 ≤ it.level := by
    rcases mem_insertedItems hit with h | h
    · exact (hlev it h).1
    · rw [h]
      exact hl
  exact ⟨hge, (hbounds it hit).2⟩

theorem loadLines_levels (lines : List (List Char)) : ∀ m : ListManager,
    (∀ it ∈ m.items, 0 ≤ it.level ∧ it.level < 11) →
    (loadLines m lines).2 = true →
    ∀ it ∈ (loadLines m lines).1.items, 0 ≤ it.level ∧ it.level < 11 := by
  induction lines with
  | nil => intro m h _; exact h
  | cons line rest ih =>
    intro m h hok
    rw [loadLines] at hok ⊢
    split at hok
    · next hblank =>
      rw [if_pos hblank]
      exact ih m h hok
    · next hblank =>
      rw [if_neg hblank]
      cases hp : m.add_item (loadContent line) (some (loadLevel line)) with
      | mk m1 o =>
        rw [hp] at hok
        cases o with
        | none => simp at hok
        | some x =>
          have hm1 : ∀ it ∈ m1.items, 0 ≤ it.level ∧ it.level < 11 := by
            have hsome : (m.add_item (loadContent line) (some (loadLevel line))).2.isSome =
                true := by rw [hp]; rfl
            have := add_item_some_levels (loadContent line)
              (fun it hit => h it hit) (loadLevel_nonneg line) hsome
            rw [hp] at this
            exact this
          exact ih m1 hm1 hok

/-- **C3** is FALSE as stated: `add_item` does not clamp an explicit level.
`add_item("", level=11)` on an empty manager leaves an item with level `11`
in `items` (and the renumbering pass then raises `IndexError`, reported here
as the `none` return). -/
theorem C3_counterexample :
    ¬(∀ it ∈ (ListManager.add_item { items := [], current_position := 0 }
        [] (some 11)).1.items, 0 ≤ it.level ∧ it.level ≤ 10) ∧
    (ListManager.add_item { items := [], current_position := 0 } [] (some 11)).1.items.map
      ListItem.level = [11] ∧
    (ListManager.add_item { items := [], current_position := 0 } [] (some 11)).2 = none := by
  refine ⟨?_, by decide, by decide⟩
  intro h
  have := h ((ListManager.add_item { items := [], current_position := 0 } [] (some 11)).1.items.getD
    0 default) (by decide)
  revert this
  decide

/-- **C3** (amended): `add_item` with an omitted level, `add_item` with an
explicit level in `[0, 10]`, `indent_item` and `outdent_item` all preserve
`0 ≤ level ≤ 10` for every item; and whenever `load_from_file` completes
without raising, every loaded item's level is in `[0, 10]`.  `add_item` with
an explicit out-of-range level violates the invariant (see the
counterexample), as does `load_from_file` mid-way before its exception
propagates. -/
theorem C3_level_invariant (m : ListManager) (content : List Char) (lvl : Int)
    (index : Int) (f : List Char)
    (hlev : ∀ it ∈ m.items, 0 ≤ it.level ∧ it.level ≤ 10) :
    (∀ it ∈ (m.add_item content none).1.items, 0 ≤ it.level ∧ it.level ≤ 10) ∧
    (0 ≤ lvl ∧ lvl ≤ 10 →
      ∀ it ∈ (m.add_item content (some lvl)).1.items, 0 ≤ it.level ∧ it.level ≤ 10) ∧
    (∀ it ∈ (m.indent_item index).1.items, 0 ≤ it.level ∧ it.level ≤ 10) ∧
    (∀ it ∈ (m.outdent_item index).1.items, 0 ≤ it.level ∧ it.level ≤ 10) ∧
    ((ListManager.load_from_file f).2 = true →
      ∀ it ∈ (ListManager.load_from_file f).1.items, 0 ≤ it.level ∧ it.level ≤ 10) := by
  have hexpl : ∀ l : Int, 0 ≤ l → l ≤ 10 →
      ∀ it ∈ (m.add_item content (some l)).1.items, 0 ≤ it.level ∧ it.level ≤ 10 := by
    intro l h0 h10
    have hsub : ∀ it ∈ insertedItems m { content := content, level := l },
        0 ≤ it.level ∧ it.level ≤ 10 := by
      intro it hit
      rcases mem_insertedItems hit with h | h
      · exact hlev it h
      · rw [h]
        exact ⟨h0, h10⟩
    rw [add_item_state_some]
    show ∀ it ∈ (renumberList (insertedItems m { content := content, level := l })).1,
      0 ≤ it.level ∧ it.level ≤ 10
    exact forall_level_of_map_eq (P := fun v => 0 ≤ v ∧ v ≤ 10) (renumberList_levels _) hsub
  refine ⟨?_, fun hl => hexpl lvl hl.1 hl.2, ?_, ?_, ?_⟩
  · cases hrec : m.get_recommended_level with
    | none =>
      rw [add_item_none_of_rec_none m content hrec]
      exact hlev
    | some l =>
      rw [add_item_none_eq_some m content hrec]
      have hlb : 0 ≤ l ∧ l ≤ 10 := by
        rw [ListManager.get_recommended_level] at hrec
        split at hrec
        · rw [← Option.some.inj hrec]
          omega
        · cases hg : pyListGet m.items (m.current_position - 1) with
          | none => rw [hg] at hrec; exact absurd hrec (by simp)
          | some x =>
            rw [hg] at hrec
            simp only [Option.map_some'] at hrec
            rw [← Option.some.inj hrec]
            exact hlev x (pyListGet_mem hg)
      exact hexpl l hlb.1 hlb.2
  · rw [ListManager.indent_item]
    split
    · cases hit : m.items[index.toNat]? with
      | some it =>
        show ∀ x ∈ (renumberList (m.items.set index.toNat
          { it with level := min (it.level + 1) 10 })).1, 0 ≤ x.level ∧ x.level ≤ 10
        refine forall_level_of_map_eq (P := fun v => 0 ≤ v ∧ v ≤ 10)
          (renumberList_levels _) ?_
        intro x hx
        rcases List.mem_or_eq_of_mem_set hx with h | h
        · exact hlev x h
        · have hb := hlev it (List.getElem?_mem hit)
          rw [h]
          show 0 ≤ min (it.level + 1) 10 ∧ min (it.level + 1) 10 ≤ 10
          omega
      | none => exact hlev
    · exact hlev
  · rw [ListManager.outdent_item]
    split
    · cases hit : m.items[index.toNat]? with
      | some it =>
        show ∀ x ∈ (renumberList (m.items.set index.toNat
          { it with level := max (it.level - 1) 0 })).1, 0 ≤ x.level ∧ x.level ≤ 10
        refine forall_level_of_map_eq (P := fun v => 0 ≤ v ∧ v ≤ 10)
          (renumberList_levels _) ?_
        intro x hx
        rcases List.mem_or_eq_of_mem_set hx with h | h
        · exact hlev x h
        · have hb := hlev it (List.getElem?_mem hit)
          rw [h]
          show 0 ≤ max (it.level - 1) 0 ∧ max (it.level - 1) 0 ≤ 10
          omega
      | none => exact hlev
    · exact hlev
  · intro hok
    have h := loadLines_levels (pyLines f) { items := [], current_position := 0 }
      (by intro it hit; simp at hit) hok
    intro it hit
    have hb := h it hit
    exact ⟨hb.1, by omega⟩

/-- Witness for `C3_level_invariant` at the sample manager. -/
theorem C3_level_invariant_witness :
    (∀ it ∈ sampleManager.items, 0 ≤ it.level ∧ it.level ≤ 10) ∧
    ((∀ it ∈ (sampleManager.add_item ['z'] none).1.items, 0 ≤ it.level ∧ it.level ≤ 10) ∧
    ((0:Int) ≤ 2 ∧ (2:Int) ≤ 10 →
      ∀ it ∈ (sampleManager.add_item ['z'] (some 2)).1.items,
        0 ≤ it.level ∧ it.level ≤ 10) ∧
    (∀ it ∈ (sampleManager.indent_item 0).1.items, 0 ≤ it.level ∧ it.level ≤ 10) ∧
    (∀ it ∈ (sampleManager.outdent_item 0).1.items, 0 ≤ it.level ∧ it.level ≤ 10) ∧
    ((ListManager.load_from_file ['1', ' ', 'a', '\n']).2 = true →
      ∀ it ∈ (ListManager.load_from_file ['1', ' ', 'a', '\n']).1.items,
        0 ≤ it.level ∧ it.level ≤ 10)) :=
  ⟨by decide,
   C3_level_invariant sampleManager ['z'] 2 0 ['1', ' ', 'a', '\n'] (by decide)⟩

/-! ## Claim C9 -/

/-- **C9**: the `dd` (delete current line) action in NORMAL mode never
empties the list: with more than one item (and a valid focus row) it deletes
exactly the current item, shrinking the list by one; with a single item it
leaves the whole editor state unchanged. -/
theorem C9_dd_guard (e : Editor)
    (hlev : ∀ it ∈ e.list_manager.items, 0 ≤ it.level ∧ it.level ≤ 10) :
    (1 < e.list_manager.items.length →
      0 ≤ e.current_line → e.current_line < (e.list_manager.items.length : Int) →
      e.handle_normal_dd.2 = true ∧
      e.handle_normal_dd.1.list_manager.items.length = e.list_manager.items.length - 1 ∧
      e.handle_normal_dd.1.list_manager.items.map stripNumber =
        (e.list_manager.items.eraseIdx e.current_line.toNat).map stripNumber) ∧
    (e.list_manager.items.length = 1 → e.handle_normal_dd = (e, true)) := by
  constructor
  · intro hlen h0 h1
    have hsub : ∀ it ∈ e.list_manager.items.eraseIdx e.current_line.toNat,
        0 ≤ it.level ∧ it.level ≤ 10 :=
      fun it hit => hlev it ((List.eraseIdx_sublist _ _).subset hit)
    have hok : (renumberList (e.list_manager.items.eraseIdx e.current_line.toNat)).2 =
        true := by rw [renumberList_model _ hsub]
    have hdel : e.list_manager.delete_item e.current_line =
        ({ items := (renumberList (e.list_manager.items.eraseIdx e.current_line.toNat)).1,
           current_position := min e.list_manager.current_position
             (((renumberList (e.list_manager.items.eraseIdx e.current_line.toNat)).1.length :
               Int) - 1) }, true) := by
      rw [ListManager.delete_item, if_pos ⟨h0, h1⟩]
      dsimp only
      rw [if_pos hok]
    rw [Editor.handle_normal_dd, if_pos hlen]
    dsimp only
    rw [hdel, if_pos rfl]
    refine ⟨rfl, ?_, ?_⟩
    · show (renumberList (e.list_manager.items.eraseIdx e.current_line.toNat)).1.length = _
      rw [renumberList_length, List.length_eraseIdx_of_lt (by omega)]
    · exact renumberList_strip _
  · intro hlen
    rw [Editor.handle_normal_dd, if_neg (by omega)]

/-- Witness for `C9_dd_guard` at the five-item sample editor. -/
theorem C9_dd_guard_witness :
    (∀ it ∈ sampleEditor.list_manager.items, 0 ≤ it.level ∧ it.level ≤ 10) ∧
    ((1 < sampleEditor.list_manager.items.length →
      0 ≤ sampleEditor.current_line →
      sampleEditor.current_line < (sampleEditor.list_manager.items.length : Int) →
      sampleEditor.handle_normal_dd.2 = true ∧
      sampleEditor.handle_normal_dd.1.list_manager.items.length =
        sampleEditor.list_manager.items.length - 1 ∧
      sampleEditor.handle_normal_dd.1.list_manager.items.map stripNumber =
        (sampleEditor.list_manager.items.eraseIdx
          sampleEditor.current_line.toNat).map stripNumber) ∧
    (sampleEditor.list_manager.items.length = 1 →
      sampleEditor.handle_normal_dd = (sampleEditor, true))) :=
  ⟨by decide, C9_dd_guard sampleEditor (by decide)⟩

/-! ## Claim C4 -/

/-- **C4** is FALSE in its last conjunct: after the second (double) Enter the
cursor is NOT reset to offset 0 — `handle_insert_mode` lines 143-148 never
assign `cursor_x`, so it stays at 2. -/
theorem C4_counterexample :
    ((((abEditor.handle_insert_mode 10).getD default).handle_insert_mode 10).getD
        default).cursor_x = 2 ∧
    ¬((((abEditor.handle_insert_mode 10).getD default).handle_insert_mode 10).getD
        default).cursor_x = 0 := by
  decide

/-- **C4** (amended): in INSERT mode with `enter_count = 0`, one Enter on the
item `"ab"` with cursor at offset 1 leaves a single item `"a\nb"` with the
cursor at offset 2 (and `enter_count = 1`); a second consecutive Enter
creates a new empty item immediately after the current one at the same
level, moves focus to it and resets `enter_count` to 0 — but leaves the
cursor at offset 2 instead of resetting it to 0. -/
theorem C4_double_enter :
    (abEditor.handle_insert_mode 10).isSome = true ∧
    ((abEditor.handle_insert_mode 10).getD default).list_manager.items.map
      ListItem.content = [['a', '\n', 'b']] ∧
    ((abEditor.handle_insert_mode 10).getD default).cursor_x = 2 ∧
    ((abEditor.handle_insert_mode 10).getD default).enter_count = 1 ∧
    ((abEditor.handle_insert_mode 10).getD default).current_line = 0 ∧
    (((abEditor.handle_insert_mode 10).getD default).handle_insert_mode 10).isSome = true ∧
    ((((abEditor.handle_insert_mode 10).getD default).handle_insert_mode 10).getD
      default).list_manager.items.map (fun it => (it.content, it.level)) =
      [(['a', '\n', 'b'], 0), ([], 0)] ∧
    ((((abEditor.handle_insert_mode 10).getD default).handle_insert_mode 10).getD
      default).current_line = 1 ∧
    ((((abEditor.handle_insert_mode 10).getD default).handle_insert_mode 10).getD
      default).enter_count = 0 ∧
    ((((abEditor.handle_insert_mode 10).getD default).handle_insert_mode 10).getD
      default).cursor_x = 2 := by
  decide

/-! ## Claim C5 -/

theorem pyWriteItem_nonneg (items : List ListItem) (i : Int) (x : ListItem)
    (h0 : 0 ≤ i) (h1 : i < items.length) :
    pyWriteItem items i x = items.set i.toNat x := by
  rw [pyWriteItem, pyIdx_nonneg h0 (by omega)]

theorem getElem?_eq_some_getD {α : Type} [Inhabited α] (l : List α) (j : Nat)
    (h : j < l.length) : l[j]? = some (l.getD j default) := by
  rw [List.getElem?_eq_getElem h, List.getD_eq_getElem?_getD,
    List.getElem?_eq_getElem h]
  rfl

theorem map_proj_set {β : Type} (f : ListItem → β) (l : List ListItem) (j : Nat)
    (x y : ListItem) (hx : l[j]? = some x) (hf : f y = f x) :
    (l.set j y).map f = l.map f := by
  apply List.ext_getElem?
  intro n
  rw [List.getElem?_map, List.getElem?_map, List.getElem?_set]
  by_cases h : j = n
  · subst h
    have hlt : j < l.length := (List.getElem?_eq_some_iff.mp hx).1
    rw [if_pos rfl, if_pos hlt, hx]
    simp [hf]
  · rw [if_neg h]

theorem outdent_item_eq (m : ListManager) (index : Int)
    (h0 : 0 ≤ index) (h1 : index < (m.items.length : Int))
    (hlev : ∀ it ∈ m.items, 0 ≤ it.level ∧ it.level ≤ 10) :
    m.outdent_item index =
      ({ m with items := (renumberList (m.items.set index.toNat
          { m.items.getD index.toNat default with
            level := max ((m.items.getD index.toNat default).level - 1) 0 })).1 }, true) := by
  rw [ListManager.outdent_item, if_pos ⟨h0, h1⟩]
  have hget : m.items[index.toNat]? = some (m.items.getD index.toNat default) :=
    getElem?_eq_some_getD m.items index.toNat (by omega)
  have hsub : ∀ it ∈ m.items.set index.toNat
      { m.items.getD index.toNat default with
        level := max ((m.items.getD index.toNat default).level - 1) 0 },
      0 ≤ it.level ∧ it.level ≤ 10 := by
    intro it hit
    rcases List.mem_or_eq_of_mem_set hit with h | h
    · exact hlev it h
    · have hb := hlev _ (getD_mem_of_lt m.items index.toNat (by omega))
      rw [h]
      show 0 ≤ max ((m.items.getD index.toNat default).level - 1) 0 ∧
        max ((m.items.getD index.toNat default).level - 1) 0 ≤ 10
      omega
  have hok : (renumberList (m.items.set index.toNat
      { m.items.getD index.toNat default with
        level := max ((m.items.getD index.toNat default).level - 1) 0 })).2 = true := by
    rw [renumberList_model _ hsub]
  simp only [hget, hok]

theorem indent_item_eq (m : ListManager) (index : Int)
    (h0 : 0 ≤ index) (h1 : index < (m.items.length : Int))
    (hlev : ∀ it ∈ m.items, 0 ≤ it.level ∧ it.level ≤ 10) :
    m.indent_item index =
      ({ m with items := (renumberList (m.items.set index.toNat
          { m.items.getD index.toNat default with
            level := min ((m.items.getD index.toNat default).level + 1) 10 })).1 }, true) := by
  rw [ListManager.indent_item, if_pos ⟨h0, h1⟩]
  have hget : m.items[index.toNat]? = some (m.items.getD index.toNat default) :=
    getElem?_eq_some_getD m.items index.toNat (by omega)
  have hsub : ∀ it ∈ m.items.set index.toNat
      { m.items.getD index.toNat default with
        level := min ((m.items.getD index.toNat default).level + 1) 10 },
      0 ≤ it.level ∧ it.level ≤ 10 := by
    intro it hit
    rcases List.mem_or_eq_of_mem_set hit with h | h
    · exact hlev it h
    · have hb := hlev _ (getD_mem_of_lt m.items index.toNat (by omega))
      rw [h]
      show 0 ≤ min ((m.items.getD index.toNat default).level + 1) 10 ∧
        min ((m.items.getD index.toNat default).level + 1) 10 ≤ 10
      omega
  have hok : (renumberList (m.items.set index.toNat
      { m.items.getD index.toNat default with
        level := min ((m.items.getD index.toNat default).level + 1) 10 })).2 = true := by
    rw [renumberList_model _ hsub]
  simp only [hget, hok]

theorem delete_item_eq (m : ListManager) (index : Int)
    (h0 : 0 ≤ index) (h1 : index < (m.items.length : Int))
    (hlev : ∀ it ∈ m.items, 0 ≤ it.level ∧ it.level ≤ 10) :
    m.delete_item index =
      ({ items := (renumberList (m.items.eraseIdx index.toNat)).1,
         current_position := min m.current_position
           (((renumberList (m.items.eraseIdx index.toNat)).1.length : Int) - 1) }, true) := by
  have hsub : ∀ it ∈ m.items.eraseIdx index.toNat, 0 ≤ it.level ∧ it.level ≤ 10 :=
    fun it hit => hlev it ((List.eraseIdx_sublist _ _).subset hit)
  have hok : (renumberList (m.items.eraseIdx index.toNat)).2 = true := by
    rw [renumberList_model _ hsub]
  rw [ListManager.delete_item, if_pos ⟨h0, h1⟩]
  dsimp only
  rw [if_pos hok]

theorem renumberList_contents (items : List ListItem) :
    (renumberList items).1.map ListItem.content = items.map ListItem.content :=
  renumberAux_contents items _

theorem getD_set_self {α : Type} [Inhabited α] (l : List α) (j : Nat) (y : α)
    (h : j < l.length) : (l.set j y).getD j default = y := by
  rw [List.getD_eq_getElem?_getD, List.getElem?_set_self (by omega)]
  rfl

theorem renumberList_level_getD (items : List ListItem) (j : Nat) (h : j < items.length) :
    ((renumberList items).1.getD j default).level = (items.getD j default).level := by
  have hmap := renumberList_levels items
  have hlen : (renumberList items).1.length = items.length := renumberList_length items
  have h2 := congrArg (fun l => l[j]?) hmap
  simp only [List.getElem?_map] at h2
  rw [List.getElem?_eq_getElem (by omega), List.getElem?_eq_getElem h] at h2
  simp only [Option.map_some'] at h2
  have h3 := Option.some.inj h2
  rw [List.getD_eq_getElem?_getD, List.getD_eq_getElem?_getD,
    List.getElem?_eq_getElem (by omega), List.getElem?_eq_getElem h]
  exact h3

/-- **C5**: in INSERT mode, Backspace follows the three-case priority of
Editor.py lines 167-186: (1) on an indented item with the cursor at offset 0
the item is outdented and nothing is deleted; (2) otherwise with the cursor
at offset 0 on a non-first item, the item is merged into the previous one
(content appended, item deleted, focus moves up, cursor at the old length of
the previous content - "foo"/"bar" become "foobar" with cursor 3);
(3) otherwise with a positive cursor the character before the cursor is
removed and the cursor moves back one. -/
theorem C5_backspace (e : Editor) (ch : Int)
    (hch : ch = KEY_BACKSPACE ∨ ch = 127 ∨ ch = 8)
    (_hmode : e.mode = Mode.INSERT)
    (h0 : 0 ≤ e.current_line) (h1 : e.current_line < (e.list_manager.items.length : Int))
    (hlev : ∀ it ∈ e.list_manager.items, 0 ≤ it.level ∧ it.level ≤ 10) :
    (e.handle_insert_mode ch).isSome = true ∧
    ((0 < (e.list_manager.items.getD e.current_line.toNat default).level ∧ e.cursor_x = 0) →
      ((e.handle_insert_mode ch).getD default).list_manager.items.map ListItem.content =
        e.list_manager.items.map ListItem.content ∧
      ((e.handle_insert_mode ch).getD default).list_manager.items.length =
        e.list_manager.items.length ∧
      (((e.handle_insert_mode ch).getD default).list_manager.items.getD
          e.current_line.toNat default).level =
        (e.list_manager.items.getD e.current_line.toNat default).level - 1 ∧
      ((e.handle_insert_mode ch).getD default).current_line = e.current_line ∧
      ((e.handle_insert_mode ch).getD default).cursor_x = e.cursor_x ∧
      ((e.handle_insert_mode ch).getD default).enter_count = 0) ∧
    ((¬(0 < (e.list_manager.items.getD e.current_line.toNat default).level ∧
        e.cursor_x = 0) ∧ e.cursor_x = 0 ∧ 0 < e.current_line) →
      ((e.handle_insert_mode ch).getD default).list_manager.items.map stripNumber =
        ((e.list_manager.items.set (e.current_line - 1).toNat
          { e.list_manager.items.getD (e.current_line - 1).toNat default with
            content :=
              (e.list_manager.items.getD (e.current_line - 1).toNat default).content ++
              (e.list_manager.items.getD e.current_line.toNat default).content }).eraseIdx
            e.current_line.toNat).map stripNumber ∧
      ((e.handle_insert_mode ch).getD default).list_manager.items.length =
        e.list_manager.items.length - 1 ∧
      ((e.handle_insert_mode ch).getD default).current_line = e.current_line - 1 ∧
      ((e.handle_insert_mode ch).getD default).cursor_x =
        ((e.list_manager.items.getD (e.current_line - 1).toNat default).content.length :
          Int) ∧
      ((e.handle_insert_mode ch).getD default).enter_count = 0) ∧
    ((¬(0 < (e.list_manager.items.getD e.current_line.toNat default).level ∧
        e.cursor_x = 0) ∧ ¬(e.cursor_x = 0 ∧ 0 < e.current_line) ∧ 0 < e.cursor_x) →
      ((e.handle_insert_mode ch).getD default).list_manager.items.map stripNumber =
        (e.list_manager.items.set e.current_line.toNat
          { e.list_manager.items.getD e.current_line.toNat default with
            content :=
              pySliceTo (e.list_manager.items.getD e.current_line.toNat default).content
                (e.cursor_x - 1) ++
              pySliceFrom (e.list_manager.items.getD e.current_line.toNat default).content
                e.cursor_x }).map stripNumber ∧
      ((e.handle_insert_mode ch).getD default).list_manager.items.length =
        e.list_manager.items.length ∧
      ((e.handle_insert_mode ch).getD default).current_line = e.current_line ∧
      ((e.handle_insert_mode ch).getD default).cursor_x = e.cursor_x - 1 ∧
      ((e.handle_insert_mode ch).getD default).enter_count = 0) := by
  have hcur : pyListGet e.list_manager.items e.current_line =
      some (e.list_manager.items.getD e.current_line.toNat default) :=
    pyListGet_eq_getD _ _ h0 h1
  have hch27 : ¬ch = 27 := by rcases hch with rfl | rfl | rfl <;> decide
  have hch10 : ¬ch = 10 := by rcases hch with rfl | rfl | rfl <;> decide
  have hch9 : ¬ch = 9 := by rcases hch with rfl | rfl | rfl <;> decide
  have hchBT : ¬ch = KEY_BTAB := by rcases hch with rfl | rfl | rfl <;> decide
  rw [Editor.handle_insert_mode,
    if_neg (show ¬e.list_manager.items.length = 0 by omega)]
  simp only [hcur]
  rw [if_neg hch27, if_neg hch10, if_neg hch9, if_neg hchBT, if_pos hch]
  by_cases hc1 : 0 < (e.list_manager.items.getD e.current_line.toNat default).level ∧
      e.cursor_x = 0
  · rw [if_pos hc1, outdent_item_eq e.list_manager e.current_line h0 h1 hlev]
    dsimp only
    rw [if_pos rfl]
    refine ⟨rfl, fun _ => ⟨?_, ?_, ?_, rfl, rfl, rfl⟩,
      fun h => absurd hc1 h.1, fun h => absurd hc1 h.1⟩
    · show (renumberList _).1.map ListItem.content = _
      rw [renumberList_contents,
        map_proj_set ListItem.content e.list_manager.items e.current_line.toNat
          (e.list_manager.items.getD e.current_line.toNat default)
          { e.list_manager.items.getD e.current_line.toNat default with
            level := max ((e.list_manager.items.getD e.current_line.toNat default).level - 1) 0 }
          (getElem?_eq_some_getD e.list_manager.items e.current_line.toNat (by omega)) rfl]
    · show (renumberList _).1.length = _
      rw [renumberList_length, List.length_set]
    · show ((renumberList _).1.getD e.current_line.toNat default).level = _
      rw [renumberList_level_getD _ _ (by rw [List.length_set]; omega),
        getD_set_self _ _ _ (by omega)]
      show max ((e.list_manager.items.getD e.current_line.toNat default).level - 1) 0 = _
      omega
  · rw [if_neg hc1]
    by_cases hc2 : e.cursor_x = 0 ∧ 0 < e.current_line
    · rw [if_pos hc2]
      have hprev : pyListGet e.list_manager.items (e.current_line - 1) =
          some (e.list_manager.items.getD (e.current_line - 1).toNat default) :=
        pyListGet_eq_getD _ _ (by omega) (by omega)
      simp only [hprev]
      rw [pyWriteItem_nonneg _ _ _ (by omega) (by omega)]
      rw [delete_item_eq
        (ListManager.mk
          (e.list_manager.items.set (e.current_line - 1).toNat
            { e.list_manager.items.getD (e.current_line - 1).toNat default with
              content :=
                (e.list_manager.items.getD (e.current_line - 1).toNat default).content ++
                (e.list_manager.items.getD e.current_line.toNat default).content })
          e.list_manager.current_position)
        e.current_line (by omega) (by simp only [List.length_set]; omega)
        (by
          intro it hit
          rcases List.mem_or_eq_of_mem_set hit with h | h
          · exact hlev it h
          · have hb := hlev _ (getD_mem_of_lt e.list_manager.items
              (e.current_line - 1).toNat (by omega))
            rw [h]
            exact hb)]
      dsimp only
      rw [if_pos rfl]
      refine ⟨rfl, fun h => absurd h hc1, fun _ => ⟨?_, ?_, rfl, rfl, rfl⟩,
        fun h => absurd hc2 h.2.1⟩
      · show (renumberList _).1.map stripNumber = _
        exact renumberList_strip _
      · show (renumberList _).1.length = _
        rw [renumberList_length,
          List.length_eraseIdx_of_lt (by rw [List.length_set]; omega), List.length_set]
    · rw [if_neg hc2]
      by_cases hc3 : 0 < e.cursor_x
      · rw [if_pos hc3, pyWriteItem_nonneg _ _ _ h0 h1]
        refine ⟨rfl, fun h => absurd h hc1, fun h => absurd ⟨h.2.1, h.2.2⟩ hc2,
          fun _ => ⟨rfl, ?_, rfl, rfl, rfl⟩⟩
        show (e.list_manager.items.set _ _).length = _
        rw [List.length_set]
      · rw [if_neg hc3]
        exact ⟨rfl, fun h => absurd h hc1, fun h => absurd ⟨h.2.1, h.2.2⟩ hc2,
          fun h => absurd h.2.2 hc3⟩

/-- Witness for `C5_backspace`: `"foo"`/`"bar"` with the cursor at offset 0
of `"bar"` merge into `"foobar"` with the cursor at offset 3. -/
theorem C5_backspace_witness :
    (((fbEditor.handle_insert_mode 127).getD default).list_manager.items.map
        ListItem.content = [['f', 'o', 'o', 'b', 'a', 'r']] ∧
      ((fbEditor.handle_insert_mode 127).getD default).cursor_x = 3 ∧
      ((fbEditor.handle_insert_mode 127).getD default).current_line = 0) ∧
    ((fbEditor.handle_insert_mode 127).isSome = true ∧
    ((0 < (fbEditor.list_manager.items.getD fbEditor.current_line.toNat default).level ∧
        fbEditor.cursor_x = 0) →
      ((fbEditor.handle_insert_mode 127).getD default).list_manager.items.map
          ListItem.content = fbEditor.list_manager.items.map ListItem.content ∧
      ((fbEditor.handle_insert_mode 127).getD default).list_manager.items.length =
        fbEditor.list_manager.items.length ∧
      (((fbEditor.handle_insert_mode 127).getD default).list_manager.items.getD
          fbEditor.current_line.toNat default).level =
        (fbEditor.list_manager.items.getD fbEditor.current_line.toNat default).level - 1 ∧
      ((fbEditor.handle_insert_mode 127).getD default).current_line =
        fbEditor.current_line ∧
      ((fbEditor.handle_insert_mode 127).getD default).cursor_x = fbEditor.cursor_x ∧
      ((fbEditor.handle_insert_mode 127).getD default).enter_count = 0) ∧
    ((¬(0 < (fbEditor.list_manager.items.getD fbEditor.current_line.toNat default).level ∧
        fbEditor.cursor_x = 0) ∧ fbEditor.cursor_x = 0 ∧ 0 < fbEditor.current_line) →
      ((fbEditor.handle_insert_mode 127).getD default).list_manager.items.map stripNumber =
        ((fbEditor.list_manager.items.set (fbEditor.current_line - 1).toNat
          { fbEditor.list_manager.items.getD (fbEditor.current_line - 1).toNat default with
            content :=
              (fbEditor.list_manager.items.getD
                (fbEditor.current_line - 1).toNat default).content ++
              (fbEditor.list_manager.items.getD
                fbEditor.current_line.toNat default).content }).eraseIdx
            fbEditor.current_line.toNat).map stripNumber ∧
      ((fbEditor.handle_insert_mode 127).getD default).list_manager.items.length =
        fbEditor.list_manager.items.length - 1 ∧
      ((fbEditor.handle_insert_mode 127).getD default).current_line =
        fbEditor.current_line - 1 ∧
      ((fbEditor.handle_insert_mode 127).getD default).cursor_x =
        ((fbEditor.list_manager.items.getD
          (fbEditor.current_line - 1).toNat default).content.length : Int) ∧
      ((fbEditor.handle_insert_mode 127).getD default).enter_count = 0) ∧
    ((¬(0 < (fbEditor.list_manager.items.getD fbEditor.current_line.toNat default).level ∧
        fbEditor.cursor_x = 0) ∧ ¬(fbEditor.cursor_x = 0 ∧ 0 < fbEditor.current_line) ∧
        0 < fbEditor.cursor_x) →
      ((fbEditor.handle_insert_mode 127).getD default).list_manager.items.map stripNumber =
        (fbEditor.list_manager.items.set fbEditor.current_line.toNat
          { fbEditor.list_manager.items.getD fbEditor.current_line.toNat default with
            content :=
              pySliceTo (fbEditor.list_manager.items.getD
                fbEditor.current_line.toNat default).content (fbEditor.cursor_x - 1) ++
              pySliceFrom (fbEditor.list_manager.items.getD
                fbEditor.current_line.toNat default).content
                fbEditor.cursor_x }).map stripNumber ∧
      ((fbEditor.handle_insert_mode 127).getD default).list_manager.items.length =
        fbEditor.list_manager.items.length ∧
      ((fbEditor.handle_insert_mode 127).getD default).current_line =
        fbEditor.current_line ∧
      ((fbEditor.handle_insert_mode 127).getD default).cursor_x = fbEditor.cursor_x - 1 ∧
      ((fbEditor.handle_insert_mode 127).getD default).enter_count = 0)) :=
  ⟨by decide,
   C5_backspace fbEditor 127 (by decide) (by decide) (by decide) (by decide) (by decide)⟩

/-! ## Claim C8 -/

theorem insertResets_true {e : Editor} {ch : Int}
    (h : ch = 9 ∨ ch = KEY_BTAB ∨ ch = KEY_BACKSPACE ∨ ch = 127 ∨ ch = 8 ∨ ch = KEY_DC ∨
      ch = KEY_LEFT ∨ ch = KEY_RIGHT ∨ (ch = KEY_UP ∧ 0 < e.current_line) ∨
      (ch = KEY_DOWN ∧ e.current_line < (e.list_manager.items.length : Int) - 1) ∨
      (32 ≤ ch ∧ ch ≤ 126)) : insertResets e ch = true := by
  simp only [insertResets, decide_eq_true_eq]
  tauto

theorem of_insertResets_true {e : Editor} {ch : Int} (h : insertResets e ch = true) :
    ch = 9 ∨ ch = KEY_BTAB ∨ ch = KEY_BACKSPACE ∨ ch = 127 ∨ ch = 8 ∨ ch = KEY_DC ∨
    ch = KEY_LEFT ∨ ch = KEY_RIGHT ∨ (ch = KEY_UP ∧ 0 < e.current_line) ∨
    (ch = KEY_DOWN ∧ e.current_line < (e.list_manager.items.length : Int) - 1) ∨
    (32 ≤ ch ∧ ch ≤ 126) := by
  simpa only [insertResets, decide_eq_true_eq] using h

/-- **C8** is FALSE as stated: with a pending Enter (`enter_count = 1`) and
focus on the first item, an Up-arrow key press falls through every branch of
`handle_insert_mode` (its guard `current_line > 0` fails), so `enter_count`
is NOT reset to 0. -/
theorem C8_counterexample :
    ((((abEditor.handle_insert_mode 10).getD default).handle_insert_mode KEY_UP).getD
        default).enter_count = 1 ∧
    ¬((((abEditor.handle_insert_mode 10).getD default).handle_insert_mode KEY_UP).getD
        default).enter_count = 0 := by
  decide

/-- **C8** (amended): in INSERT mode, a key that is neither Enter nor ESC
resets `enter_count` to 0 exactly when it is handled by some branch — Tab,
Shift+Tab, Backspace, Delete, Left, Right, Up with `current_line > 0`, Down
with `current_line < len - 1`, or a printable character (32-126).  Keys that
fall through every branch (unrecognized codes, Up on the first item, Down on
the last item) leave `enter_count` unchanged. -/
theorem C8_enter_count_reset (e : Editor) (ch : Int)
    (hch10 : ¬ch = 10) (hch27 : ¬ch = 27)
    (_hmode : e.mode = Mode.INSERT)
    (h0 : 0 ≤ e.current_line) (h1 : e.current_line < (e.list_manager.items.length : Int))
    (hlev : ∀ it ∈ e.list_manager.items, 0 ≤ it.level ∧ it.level ≤ 10) :
    (e.handle_insert_mode ch).isSome = true ∧
    (insertResets e ch = true →
      ((e.handle_insert_mode ch).getD default).enter_count = 0) ∧
    (insertResets e ch = false →
      ((e.handle_insert_mode ch).getD default).enter_count = e.enter_count) := by
  have hcur : pyListGet e.list_manager.items e.current_line =
      some (e.list_manager.items.getD e.current_line.toNat default) :=
    pyListGet_eq_getD _ _ h0 h1
  rw [Editor.handle_insert_mode,
    if_neg (show ¬e.list_manager.items.length = 0 by omega)]
  simp only [hcur]
  rw [if_neg hch27, if_neg hch10]
  by_cases h9 : ch = 9
  · rw [if_pos h9, indent_item_eq e.list_manager e.current_line h0 h1 hlev]
    dsimp only
    rw [if_pos rfl]
    exact ⟨rfl, fun _ => rfl, fun hr => absurd ((@insertResets_true e ch (by tauto)).symm.trans hr) (by simp)⟩
  rw [if_neg h9]
  by_cases hBT : ch = KEY_BTAB
  · rw [if_pos hBT, outdent_item_eq e.list_manager e.current_line h0 h1 hlev]
    dsimp only
    rw [if_pos rfl]
    exact ⟨rfl, fun _ => rfl, fun hr => absurd ((@insertResets_true e ch (by tauto)).symm.trans hr) (by simp)⟩
  rw [if_neg hBT]
  by_cases hBS : ch = KEY_BACKSPACE ∨ ch = 127 ∨ ch = 8
  · rw [if_pos hBS]
    have hreset : insertResets e ch = true := insertResets_true (by tauto)
    by_cases hc1 : 0 < (e.list_manager.items.getD e.current_line.toNat default).level ∧
        e.cursor_x = 0
    · rw [if_pos hc1, outdent_item_eq e.list_manager e.current_line h0 h1 hlev]
      dsimp only
      rw [if_pos rfl]
      exact ⟨rfl, fun _ => rfl, fun hr => absurd (hreset.symm.trans hr) (by simp)⟩
    rw [if_neg hc1]
    by_cases hc2 : e.cursor_x = 0 ∧ 0 < e.current_line
    · rw [if_pos hc2]
      have hprev : pyListGet e.list_manager.items (e.current_line - 1) =
          some (e.list_manager.items.getD (e.current_line - 1).toNat default) :=
        pyListGet_eq_getD _ _ (by omega) (by omega)
      simp only [hprev]
      rw [pyWriteItem_nonneg _ _ _ (by omega) (by omega)]
      rw [delete_item_eq
        (ListManager.mk
          (e.list_manager.items.set (e.current_line - 1).toNat
            { e.list_manager.items.getD (e.current_line - 1).toNat default with
              content :=
                (e.list_manager.items.getD (e.current_line - 1).toNat default).content ++
                (e.list_manager.items.getD e.current_line.toNat default).content })
          e.list_manager.current_position)
        e.current_line (by omega) (by simp only [List.length_set]; omega)
        (by
          intro it hit
          rcases List.mem_or_eq_of_mem_set hit with h | h
          · exact hlev it h
          · have hb := hlev _ (getD_mem_of_lt e.list_manager.items
              (e.current_line - 1).toNat (by omega))
            rw [h]
            exact hb)]
      dsimp only
      rw [if_pos rfl]
      exact ⟨rfl, fun _ => rfl, fun hr => absurd (hreset.symm.trans hr) (by simp)⟩
    rw [if_neg hc2]
    by_cases hc3 : 0 < e.cursor_x
    · rw [if_pos hc3]
      exact ⟨rfl, fun _ => rfl, fun hr => absurd (hreset.symm.trans hr) (by simp)⟩
    · rw [if_neg hc3]
      exact ⟨rfl, fun _ => rfl, fun hr => absurd (hreset.symm.trans hr) (by simp)⟩
  rw [if_neg hBS]
  by_cases hDC : ch = KEY_DC
  · rw [if_pos hDC]
    have hreset : insertResets e ch = true := insertResets_true (by tauto)
    by_cases hlt : e.cursor_x <
        ((e.list_manager.items.getD e.current_line.toNat default).content.length : Int)
    · rw [if_pos hlt]
      exact ⟨rfl, fun _ => rfl, fun hr => absurd (hreset.symm.trans hr) (by simp)⟩
    · rw [if_neg hlt]
      exact ⟨rfl, fun _ => rfl, fun hr => absurd (hreset.symm.trans hr) (by simp)⟩
  rw [if_neg hDC]
  by_cases hL : ch = KEY_LEFT
  · rw [if_pos hL]
    exact ⟨rfl, fun _ => rfl, fun hr => absurd ((@insertResets_true e ch (by tauto)).symm.trans hr) (by simp)⟩
  rw [if_neg hL]
  by_cases hR : ch = KEY_RIGHT
  · rw [if_pos hR]
    exact ⟨rfl, fun _ => rfl, fun hr => absurd ((@insertResets_true e ch (by tauto)).symm.trans hr) (by simp)⟩
  rw [if_neg hR]
  by_cases hUP : ch = KEY_UP ∧ 0 < e.current_line
  · rw [if_pos hUP]
    have htgt : pyListGet e.list_manager.items (e.current_line - 1) =
        some (e.list_manager.items.getD (e.current_line - 1).toNat default) :=
      pyListGet_eq_getD _ _ (by omega) (by omega)
    simp only [htgt]
    exact ⟨rfl, fun _ => rfl, fun hr => absurd ((@insertResets_true e ch (by tauto)).symm.trans hr) (by simp)⟩
  rw [if_neg hUP]
  by_cases hDN : ch = KEY_DOWN ∧ e.current_line < (e.list_manager.items.length : Int) - 1
  · rw [if_pos hDN]
    have htgt : pyListGet e.list_manager.items (e.current_line + 1) =
        some (e.list_manager.items.getD (e.current_line + 1).toNat default) :=
      pyListGet_eq_getD _ _ (by omega) (by omega)
    simp only [htgt]
    exact ⟨rfl, fun _ => rfl, fun hr => absurd ((@insertResets_true e ch (by tauto)).symm.trans hr) (by simp)⟩
  rw [if_neg hDN]
  by_cases hPR : 32 ≤ ch ∧ ch ≤ 126
  · rw [if_pos hPR]
    exact ⟨rfl, fun _ => rfl, fun hr => absurd ((@insertResets_true e ch (by tauto)).symm.trans hr) (by simp)⟩
  · rw [if_neg hPR]
    refine ⟨rfl, fun hr => ?_, fun _ => rfl⟩
    rcases of_insertResets_true hr with h | h | h | h | h | h | h | h | h | h | h
    · exact absurd h h9
    · exact absurd h hBT
    · exact absurd (Or.inl h) hBS
    · exact absurd (Or.inr (Or.inl h)) hBS
    · exact absurd (Or.inr (Or.inr h)) hBS
    · exact absurd h hDC
    · exact absurd h hL
    · exact absurd h hR
    · exact absurd h hUP
    · exact absurd h hDN
    · exact absurd h hPR

/-- Witness for `C8_enter_count_reset`: a printable key resets the pending
Enter counter. -/
theorem C8_enter_count_reset_witness :
    (insertResets abEditor 97 = true ∧
      ((abEditor.handle_insert_mode 97).getD default).enter_count = 0) ∧
    ((abEditor.handle_insert_mode 97).isSome = true ∧
    (insertResets abEditor 97 = true →
      ((abEditor.handle_insert_mode 97).getD default).enter_count = 0) ∧
    (insertResets abEditor 97 = false →
      ((abEditor.handle_insert_mode 97).getD default).enter_count =
        abEditor.enter_count)) :=
  ⟨by decide,
   C8_enter_count_reset abEditor 97 (by decide) (by decide) (by decide) (by decide)
     (by decide) (by decide)⟩

/-! ## Claim C2: whitespace and token lemmas -/

theorem joinSpace_cons₂ (t u : List Char) (ts : List (List Char)) :
    joinSpace (t :: u :: ts) = t ++ ' ' :: joinSpace (u :: ts) := rfl

theorem mem_joinSpace {c : Char} : ∀ {ts : List (List Char)}, c ∈ joinSpace ts →
    c = ' ' ∨ ∃ t ∈ ts, c ∈ t := by
  intro ts
  induction ts with
  | nil => intro h; simp [joinSpace] at h
  | cons t ts ih =>
    intro h
    cases ts with
    | nil => exact Or.inr ⟨t, List.mem_cons_self t [], h⟩
    | cons u ts2 =>
      rw [joinSpace_cons₂] at h
      rcases List.mem_append.mp h with h | h
      · exact Or.inr ⟨t, List.mem_cons_self t _, h⟩
      · rcases List.mem_cons.mp h with h | h
        · exact Or.inl h
        · rcases ih h with h | ⟨v, hv, hc⟩
          · exact Or.inl h
          · exact Or.inr ⟨v, List.mem_cons_of_mem _ hv, hc⟩

theorem pySplitAux_tokens : ∀ (s : List Char) (acc : List Char),
    (∀ c ∈ acc, isSpace c = false) →
    ∀ t ∈ pySplitAux acc s, t ≠ [] ∧ ∀ c ∈ t, isSpace c = false := by
  intro s
  induction s with
  | nil =>
    intro acc hacc t ht
    rw [pySplitAux] at ht
    split at ht
    · simp at ht
    · next hne =>
      rw [List.mem_singleton] at ht
      subst ht
      exact ⟨by simpa using hne, fun c hc => hacc c (by simpa using hc)⟩
  | cons c cs ih =>
    intro acc hacc t ht
    rw [pySplitAux] at ht
    split at ht
    · split at ht
      · exact ih [] (by simp) t ht
      · next hne =>
        rcases List.mem_cons.mp ht with h | h
        · subst h
          exact ⟨by simpa using hne, fun x hx => hacc x (by simpa using hx)⟩
        · exact ih [] (by simp) t h
    · next hsp =>
      refine ih (c :: acc) ?_ t ht
      intro x hx
      rcases List.mem_cons.mp hx with h | h
      · rw [h]
        simpa using hsp
      · exact hacc x h

theorem pySplit_tokens (s : List Char) :
    ∀ t ∈ pySplit s, t ≠ [] ∧ ∀ c ∈ t, isSpace c = false :=
  pySplitAux_tokens s [] (by simp)

theorem contentNormalized_chars {c : List Char} (h : contentNormalized c = true) :
    ∀ ch ∈ c, ch = ' ' ∨ isSpace ch = false := by
  intro ch hch
  have hEq : joinSpace (pySplit c) = c := by simpa [contentNormalized] using h
  rw [← hEq] at hch
  rcases mem_joinSpace hch with h2 | ⟨t, ht, hc⟩
  · exact Or.inl h2
  · exact Or.inr ((pySplit_tokens c t ht).2 ch hc)

theorem contentNormalized_no_newline {c : List Char} (h : contentNormalized c = true) :
    '\n' ∉ c := by
  intro hmem
  rcases contentNormalized_chars h '\n' hmem with h2 | h2
  · exact absurd h2 (by decide)
  · exact absurd h2 (by decide)

theorem dropWhile_replicate_space (n : Nat) (rest : List Char) :
    (List.replicate n ' ' ++ rest).dropWhile isSpace = rest.dropWhile isSpace := by
  induction n with
  | zero => simp
  | succ k ih =>
    rw [List.replicate_succ, List.cons_append, List.dropWhile_cons,
      if_pos (by decide : isSpace ' ' = true)]
    exact ih

theorem dropWhile_cons_nonspace {c : Char} {l : List Char} (h : isSpace c = false) :
    (c :: l).dropWhile isSpace = c :: l := by
  rw [List.dropWhile_cons, if_neg (by simp [h])]

theorem pyRstrip_concat_space {X : List Char} {c : Char} (h : isSpace c = true) :
    pyRstrip (X ++ [c]) = pyRstrip X := by
  simp only [pyRstrip, List.reverse_append, List.reverse_singleton, List.singleton_append]
  rw [List.dropWhile_cons, if_pos (by simp [h])]

theorem pyRstrip_concat_nonspace {X : List Char} {c : Char} (h : isSpace c = false) :
    pyRstrip (X ++ [c]) = X ++ [c] := by
  simp only [pyRstrip, List.reverse_append, List.reverse_singleton, List.singleton_append]
  rw [List.dropWhile_cons, if_neg (by simp [h]), List.reverse_cons, List.reverse_reverse]

theorem joinSpace_concat (ts : List (List Char)) : ts ≠ [] →
    (∀ t ∈ ts, t ≠ [] ∧ ∀ c ∈ t, isSpace c = false) →
    ∃ b ch, joinSpace ts = b ++ [ch] ∧ isSpace ch = false := by
  induction ts with
  | nil => intro hne _; cases hne rfl
  | cons t ts ih =>
    intro _ htok
    cases ts with
    | nil =>
      obtain ⟨ht1, ht2⟩ := htok t (by simp)
      rcases List.eq_nil_or_concat t with h | ⟨b, ch, h⟩
      · exact absurd h ht1
      · refine ⟨b, ch, ?_, ht2 ch (by rw [h]; simp)⟩
        show t = b ++ [ch]
        rw [h, List.concat_eq_append]
    | cons u ts2 =>
      obtain ⟨b, ch, hEq, hsp⟩ := ih (by simp)
        (fun x hx => htok x (List.mem_cons_of_mem _ hx))
      refine ⟨t ++ ' ' :: b, ch, ?_, hsp⟩
      rw [joinSpace_cons₂, hEq]
      simp

theorem pySplitAux_chunk : ∀ (t acc rest : List Char),
    (∀ c ∈ t, isSpace c = false) →
    pySplitAux acc (t ++ rest) = pySplitAux (t.reverse ++ acc) rest := by
  intro t
  induction t with
  | nil => intro acc rest _; simp
  | cons c t ih =>
    intro acc rest h
    rw [List.cons_append, pySplitAux, if_neg (by simp [h c (by simp)])]
    rw [ih (c :: acc) rest (fun x hx => h x (List.mem_cons_of_mem _ hx))]
    congr 1
    simp

theorem pySplit_token_cons (t rest : List Char) (ht : t ≠ [])
    (hc : ∀ c ∈ t, isSpace c = false) :
    pySplit (t ++ ' ' :: rest) = t :: pySplit rest := by
  rw [pySplit, pySplitAux_chunk t [] (' ' :: rest) hc, pySplitAux,
    if_pos (by decide : isSpace ' ' = true), if_neg (by simpa using ht)]
  simp [pySplit]

theorem pySplit_single (t : List Char) (ht : t ≠ []) (hc : ∀ c ∈ t, isSpace c = false) :
    pySplit t = [t] := by
  have h := pySplitAux_chunk t [] [] hc
  rw [List.append_nil] at h
  rw [pySplit, h, pySplitAux, if_neg (by simpa using ht)]
  simp

theorem pyLinesAux_line : ∀ (b acc rest : List Char), '\n' ∉ b →
    pyLinesAux acc (b ++ '\n' :: rest) =
      (acc.reverse ++ b ++ ['\n']) :: pyLinesAux [] rest := by
  intro b
  induction b with
  | nil =>
    intro acc rest _
    rw [List.nil_append, pyLinesAux, if_pos rfl]
    simp
  | cons c b ih =>
    intro acc rest h
    rw [List.cons_append, pyLinesAux,
      if_neg (by intro hc; exact h (by rw [← hc]; exact List.mem_cons_self c b))]
    rw [ih (c :: acc) rest (fun hm => h (List.mem_cons_of_mem _ hm))]
    congr 2
    simp

theorem pyLines_flatten : ∀ (lines : List (List Char)),
    (∀ l ∈ lines, ∃ b, l = b ++ ['\n'] ∧ '\n' ∉ b) →
    pyLines lines.flatten = lines := by
  intro lines
  induction lines with
  | nil => intro _; rfl
  | cons l ls ih =>
    intro h
    obtain ⟨b, hEq, hb⟩ := h l (by simp)
    rw [List.flatten_cons, hEq, List.append_assoc, List.singleton_append, pyLines,
      pyLinesAux_line b [] _ hb]
    rw [show pyLinesAux [] ls.flatten = pyLines ls.flatten from rfl,
      ih (fun x hx => h x (List.mem_cons_of_mem _ hx))]
    simp

theorem numChar_not_space {c : Char} (h : numChar c) : isSpace c = false := by
  rcases h with rfl | ⟨d, hd, rfl⟩
  · decide
  · exact not_isSpace_digitChar d hd

theorem numChar_ne_newline {c : Char} (h : numChar c) : c ≠ '\n' := by
  intro hEq
  have h2 := numChar_not_space h
  rw [hEq] at h2
  exact absurd h2 (by decide)

theorem saveLine_wf (it : ListItem) (hnum : numberWF it.number)
    (hnorm : contentNormalized it.content = true) :
    ∃ b, ListItem.saveLine it = b ++ ['\n'] ∧ '\n' ∉ b := by
  refine ⟨List.replicate (4 * it.level.toNat) ' ' ++ it.number ++ ' ' :: it.content, ?_, ?_⟩
  · rw [ListItem.saveLine]
    simp
  · intro hmem
    simp only [List.mem_append, List.mem_cons, List.mem_replicate] at hmem
    rcases hmem with (h | h) | h | h
    · exact absurd h.2 (by decide)
    · exact numChar_ne_newline (hnum.2 _ h) rfl
    · exact absurd h (by decide)
    · exact contentNormalized_no_newline hnorm h


theorem mem_intercalateDot {c : Char} : ∀ {ps : List (List Char)},
    c ∈ intercalateDot ps → c = '.' ∨ ∃ p ∈ ps, c ∈ p := by
  intro ps
  induction ps with
  | nil => intro h; simp [intercalateDot] at h
  | cons p ps ih =>
    intro h
    cases ps with
    | nil => exact Or.inr ⟨p, List.mem_cons_self p [], h⟩
    | cons q qs =>
      rw [intercalateDot_cons₂] at h
      rcases List.mem_append.mp h with h | h
      · exact Or.inr ⟨p, List.mem_cons_self p _, h⟩
      · rcases List.mem_cons.mp h with h | h
        · exact Or.inl h
        · rcases ih h with h | ⟨v, hv, hc⟩
          · exact Or.inl h
          · exact Or.inr ⟨v, List.mem_cons_of_mem _ hv, hc⟩

theorem intercalateDot_ne_nil {p : List Char} {ps : List (List Char)} (hp : p ≠ []) :
    intercalateDot (p :: ps) ≠ [] := by
  cases ps with
  | nil => exact hp
  | cons q qs =>
    rw [intercalateDot_cons₂]
    intro h
    have h2 := congrArg List.length h
    simp at h2

theorem modelNumber_wf (revAll : List Int) (l : Int) (h : 0 ≤ l) :
    numberWF (modelNumber revAll l) := by
  rw [modelNumber]
  constructor
  · cases hps : (pyRange 0 (l + 1)).map fun k => natToChars (countSinceAux k revAll) with
    | nil =>
      have hlen := congrArg List.length hps
      simp only [List.length_map, length_pyRange, List.length_nil] at hlen
      omega
    | cons p ps =>
      have hp : p ≠ [] := by
        have hmem : p ∈ (pyRange 0 (l + 1)).map fun k => natToChars (countSinceAux k revAll) := by
          rw [hps]
          exact List.mem_cons_self p ps
        obtain ⟨k, _, hk⟩ := List.mem_map.mp hmem
        rw [← hk]
        exact natToChars_ne_nil _
      exact intercalateDot_ne_nil hp
  · intro c hc
    rcases mem_intercalateDot hc with h2 | ⟨p, hp, hcp⟩
    · exact Or.inl h2
    · obtain ⟨k, _, hk⟩ := List.mem_map.mp hp
      obtain ⟨d, hd, hcd⟩ := natToChars_digit _ c (by rw [hk]; exact hcp)
      exact Or.inr ⟨d, hd, hcd⟩

theorem mem_modelRenumber_number : ∀ (items : List ListItem) (rev : List Int),
    (∀ x ∈ items, 0 ≤ x.level) → ∀ it ∈ modelRenumber rev items,
    ∃ revAll l, 0 ≤ l ∧ it.number = modelNumber revAll l := by
  intro items
  induction items with
  | nil => intro rev _ it hit; simp [modelRenumber] at hit
  | cons x rest ih =>
    intro rev hl it hit
    rw [modelRenumber] at hit
    rcases List.mem_cons.mp hit with h | h
    · exact ⟨x.level :: rev, x.level, hl x (List.mem_cons_self x rest), by rw [h]⟩
    · exact ih (x.level :: rev) (fun y hy => hl y (List.mem_cons_of_mem _ hy)) it h

theorem numberWF_chars {n : List Char} (h : numberWF n) : ∀ c ∈ n, isSpace c = false :=
  fun c hc => numChar_not_space (h.2 c hc)

theorem lstrip_saveLine (it : ListItem) (hnum : numberWF it.number) :
    pyLstrip (ListItem.saveLine it) = it.number ++ (' ' :: (it.content ++ ['\n'])) := by
  rw [ListItem.saveLine, pyLstrip, List.append_assoc, dropWhile_replicate_space]
  cases hn : it.number with
  | nil => exact absurd hn hnum.1
  | cons c num2 =>
    rw [List.cons_append,
      dropWhile_cons_nonspace (numberWF_chars hnum c (by rw [hn]; simp))]

theorem norm_content_concat {c : List Char} (hnorm : contentNormalized c = true)
    (hne : c ≠ []) : ∃ b ch, c = b ++ [ch] ∧ isSpace ch = false := by
  have hEq : joinSpace (pySplit c) = c := by simpa [contentNormalized] using hnorm
  have htoks : pySplit c ≠ [] := by
    intro h
    apply hne
    rw [← hEq, h]
    rfl
  obtain ⟨b, ch, hbc, hsp⟩ := joinSpace_concat (pySplit c) htoks (pySplit_tokens c)
  rw [hEq] at hbc
  exact ⟨b, ch, hbc, hsp⟩

theorem strip_saveLine (it : ListItem) (hnum : numberWF it.number)
    (hnorm : contentNormalized it.content = true) :
    pyStrip (ListItem.saveLine it) =
      it.number ++ (if it.content = [] then [] else ' ' :: it.content) := by
  rw [pyStrip, lstrip_saveLine it hnum]
  by_cases hc : it.content = []
  · rw [if_pos hc, hc, List.append_nil]
    have h1 : it.number ++ (' ' :: (([] : List Char) ++ ['\n'])) =
        (it.number ++ [' ']) ++ ['\n'] := by simp
    rw [h1, pyRstrip_concat_space (by decide), pyRstrip_concat_space (by decide)]
    rcases List.eq_nil_or_concat it.number with h | ⟨b, ch, h⟩
    · exact absurd h hnum.1
    · rw [h, List.concat_eq_append,
        pyRstrip_concat_nonspace (numberWF_chars hnum ch (by rw [h]; simp))]
  · rw [if_neg hc]
    obtain ⟨b, ch, hbc, hsp⟩ := norm_content_concat hnorm hc
    have h1 : it.number ++ (' ' :: (it.content ++ ['\n'])) =
        (it.number ++ (' ' :: it.content)) ++ ['\n'] := by simp
    rw [h1, pyRstrip_concat_space (by decide)]
    have h2 : it.number ++ (' ' :: it.content) = (it.number ++ (' ' :: b)) ++ [ch] := by
      rw [hbc]
      simp
    rw [h2, pyRstrip_concat_nonspace hsp, ← h2]

theorem strip_saveLine_ne_nil (it : ListItem) (hnum : numberWF it.number)
    (hnorm : contentNormalized it.content = true) :
    (pyStrip (ListItem.saveLine it)).length ≠ 0 := by
  rw [strip_saveLine it hnum hnorm]
  cases hn : it.number with
  | nil => exact absurd hn hnum.1
  | cons c num2 => simp

theorem loadLevel_saveLine (it : ListItem) (h0 : 0 ≤ it.level)
    (hnum : numberWF it.number) : loadLevel (ListItem.saveLine it) = it.level := by
  rw [loadLevel, lstrip_saveLine it hnum]
  have hlen : ((ListItem.saveLine it).length : Int) -
      (((it.number ++ (' ' :: (it.content ++ ['\n']))).length : Int)) =
      4 * (it.level.toNat : Int) := by
    rw [ListItem.saveLine]
    simp only [List.length_append, List.length_cons, List.length_replicate]
    push_cast
    ring_nf
  rw [hlen, Int.mul_fdiv_cancel_left _ (by norm_num)]
  omega

theorem loadContent_saveLine (it : ListItem) (hnum : numberWF it.number)
    (hnorm : contentNormalized it.content = true) :
    loadContent (ListItem.saveLine it) = it.content := by
  rw [loadContent, strip_saveLine it hnum hnorm]
  by_cases hc : it.content = []
  · rw [if_pos hc, List.append_nil,
      pySplit_single it.number hnum.1 (numberWF_chars hnum)]
    rw [hc]
    rfl
  · rw [if_neg hc,
      pySplit_token_cons it.number it.content hnum.1 (numberWF_chars hnum)]
    simpa [contentNormalized] using hnorm

theorem map_pair_of_map_strip {A B : List ListItem}
    (h : A.map stripNumber = B.map stripNumber) :
    A.map (fun it => (it.content, it.level)) = B.map (fun it => (it.content, it.level)) := by
  have hA : A.map (fun it => (it.content, it.level)) =
      (A.map stripNumber).map (fun it => (it.content, it.level)) := by
    rw [List.map_map]
    rfl
  have hB : B.map (fun it => (it.content, it.level)) =
      (B.map stripNumber).map (fun it => (it.content, it.level)) := by
    rw [List.map_map]
    rfl
  rw [hA, hB, h]

theorem loadLines_roundtrip (pend : List ListItem) : ∀ m : ListManager,
    m.current_position = (m.items.length : Int) →
    (∀ it ∈ m.items, 0 ≤ it.level ∧ it.level ≤ 10) →
    renumberList m.items = (m.items, true) →
    (∀ it ∈ pend, (0 ≤ it.level ∧ it.level ≤ 10) ∧ numberWF it.number ∧
      contentNormalized it.content = true) →
    (loadLines m (pend.map ListItem.saveLine)).2 = true ∧
    (loadLines m (pend.map ListItem.saveLine)).1.items.map
        (fun it => (it.content, it.level)) =
      (m.items ++ pend).map (fun it => (it.content, it.level)) ∧
    (∀ it ∈ (loadLines m (pend.map ListItem.saveLine)).1.items,
      0 ≤ it.level ∧ it.level ≤ 10) ∧
    renumberList (loadLines m (pend.map ListItem.saveLine)).1.items =
      ((loadLines m (pend.map ListItem.saveLine)).1.items, true) := by
  induction pend with
  | nil =>
    intro m hpos hlev hfix _
    exact ⟨rfl, by simp only [List.map_nil, loadLines, List.append_nil], hlev, hfix⟩
  | cons it pend ih =>
    intro m hpos hlev hfix hpend
    obtain ⟨hitlev, hitnum, hitnorm⟩ := hpend it (List.mem_cons_self it pend)
    have hguard : ¬ (pyStrip (ListItem.saveLine it)).length = 0 :=
      strip_saveLine_ne_nil it hitnum hitnorm
    have hpos2 : 0 ≤ m.current_position ∧ m.current_position ≤ (m.items.length : Int) := by
      constructor <;> omega
    have hcore := add_item_default_core m it.content it.level hpos2 hlev hitlev
    cases ha : m.add_item it.content (some it.level) with
    | mk m1 o =>
    rw [ha] at hcore
    cases o with
    | none => simp at hcore
    | some x =>
    have hstep : loadLines m (ListItem.saveLine it :: pend.map ListItem.saveLine) =
        loadLines m1 (pend.map ListItem.saveLine) := by
      simp only [loadLines, if_neg hguard, loadContent_saveLine it hitnum hitnorm,
        loadLevel_saveLine it hitlev.1 hitnum, ha]
    have hposNat : m.current_position.toNat = m.items.length := by omega
    have hm1strip : m1.items.map stripNumber = (m.items ++
        [({ content := it.content, level := it.level } : ListItem)]).map stripNumber := by
      have h4 := hcore.2.2.2
      rw [hposNat, List.take_length, List.drop_length] at h4
      exact h4
    have hins : ∀ y ∈ insertedItems m ({ content := it.content, level := it.level } : ListItem),
        0 ≤ y.level ∧ y.level ≤ 10 := by
      intro y hy
      rw [insertedItems_eq m _ hpos2.1 hpos2.2, hposNat, List.take_length,
        List.drop_length] at hy
      rcases List.mem_append.mp hy with h | h
      · exact hlev y h
      · rw [List.mem_singleton.mp h]
        exact hitlev
    have hok : (renumberList (insertedItems m
        ({ content := it.content, level := it.level } : ListItem))).2 = true := by
      rw [renumberList_model _ hins]
    have hm1 : m1.items = (renumberList (insertedItems m
        ({ content := it.content, level := it.level } : ListItem))).1 := by
      have h5 := add_item_state_some m it.content it.level
      rw [ha] at h5
      exact congrArg ListManager.items h5
    have hpos1 : m1.current_position = (m1.items.length : Int) := by
      have h6 := add_item_pos_len m it.content it.level
      rw [ha] at h6
      rw [h6.1, h6.2, hpos]
      push_cast
      ring
    have hlev1 : ∀ y ∈ m1.items, 0 ≤ y.level ∧ y.level ≤ 10 := by
      refine @forall_level_of_map_eq (fun v => 0 ≤ v ∧ v ≤ 10) m1.items
        (insertedItems m ({ content := it.content, level := it.level } : ListItem)) ?_ hins
      rw [hm1]
      exact renumberList_levels _
    have hfix1 : renumberList m1.items = (m1.items, true) := by
      rw [hm1]
      exact renumberAux_fixpoint _ _ hok
    have hpend1 : ∀ y ∈ pend, (0 ≤ y.level ∧ y.level ≤ 10) ∧ numberWF y.number ∧
        contentNormalized y.content = true :=
      fun y hy => hpend y (List.mem_cons_of_mem it hy)
    have hIH := ih m1 hpos1 hlev1 hfix1 hpend1
    rw [List.map_cons, hstep]
    refine ⟨hIH.1, ?_, hIH.2.2.1, hIH.2.2.2⟩
    rw [hIH.2.1, List.map_append, map_pair_of_map_strip hm1strip]
    simp

/-- **C2** is FALSE as stated: the single-item document with content
`"a  b"` (two interior spaces, no line-break marker anywhere, numbers
exactly as `renumber_items` computes them) saves and reloads without
raising, but comes back with content `"a b"`: the
`' '.join(content.split()[1:])` step of `load_from_file` collapses interior
whitespace, so the `(content, level)` sequence is not reproduced. -/
theorem C2_counterexample :
    (∀ it ∈ aabManager.items, '\n' ∉ it.content) ∧
    renumberList aabManager.items = (aabManager.items, true) ∧
    (ListManager.load_from_file aabManager.save_to_file).2 = true ∧
    (ListManager.load_from_file aabManager.save_to_file).1.items.map
        (fun it => (it.content, it.level)) ≠
      aabManager.items.map (fun it => (it.content, it.level)) := by
  decide

/-- **C2** (amended): whenever every item's level is in `[0, 10]`, every
item's content is whitespace-normalized (in particular free of line-break
markers, tabs, and leading, trailing or repeated spaces), and the stored
numbers are exactly what `renumber_items` computes (a fixpoint of the
renumbering pass, as the application maintains after every action), then
`save_to_file` followed by `load_from_file` raises no exception, reproduces
the same ordered sequence of `(content, level)` pairs, and yields numbers
that are exactly what `renumber_items` would independently compute for that
level sequence (the loaded state is again a renumbering fixpoint). -/
theorem C2_save_load_roundtrip (m : ListManager)
    (hlev : ∀ it ∈ m.items, 0 ≤ it.level ∧ it.level ≤ 10)
    (hnorm : ∀ it ∈ m.items, contentNormalized it.content = true)
    (hfix : renumberList m.items = (m.items, true)) :
    (ListManager.load_from_file m.save_to_file).2 = true ∧
    (ListManager.load_from_file m.save_to_file).1.items.map
        (fun it => (it.content, it.level)) =
      m.items.map (fun it => (it.content, it.level)) ∧
    renumberList (ListManager.load_from_file m.save_to_file).1.items =
      ((ListManager.load_from_file m.save_to_file).1.items, true) := by
  have hnumWF : ∀ x ∈ m.items, numberWF x.number := by
    have hmodel : m.items = modelRenumber [] m.items := by
      have h1 := renumberList_model m.items hlev
      rw [hfix] at h1
      exact congrArg Prod.fst h1
    intro x hx
    rw [hmodel] at hx
    obtain ⟨revAll, l, hl, hnum⟩ := mem_modelRenumber_number m.items []
      (fun y hy => (hlev y hy).1) x hx
    rw [hnum]
    exact modelNumber_wf revAll l hl
  have hlines : pyLines m.save_to_file = m.items.map ListItem.saveLine := by
    rw [ListManager.save_to_file]
    apply pyLines_flatten
    intro l hl
    obtain ⟨y, hy, hEq⟩ := List.mem_map.mp hl
    rw [← hEq]
    exact saveLine_wf y (hnumWF y hy) (hnorm y hy)
  have hrt := loadLines_roundtrip m.items { items := [], current_position := 0 }
    (by simp) (by simp) rfl
    (fun y hy => ⟨hlev y hy, hnumWF y hy, hnorm y hy⟩)
  rw [ListManager.load_from_file, hlines]
  refine ⟨hrt.1, ?_, hrt.2.2.2⟩
  rw [hrt.2.1]
  simp

/-- The amended **C2** holds at a concrete two-item document (`"Buy milk"`
at level 0 numbered `1`, `"Now"` at level 1 numbered `1.1`). -/
theorem C2_save_load_roundtrip_witness :
    (ListManager.load_from_file roundManager.save_to_file).2 = true ∧
    (ListManager.load_from_file roundManager.save_to_file).1.items.map
        (fun it => (it.content, it.level)) =
      roundManager.items.map (fun it => (it.content, it.level)) ∧
    renumberList (ListManager.load_from_file roundManager.save_to_file).1.items =
      ((ListManager.load_from_file roundManager.save_to_file).1.items, true) :=
  C2_save_load_roundtrip roundManager (by decide) (by decide) (by decide)

end TextEditor
